import Mathlib

/-!
Verification of the resolver synthesizer and dispatch runtime of
openapi-graphql (resolver builder module: getResolver,
resolveRuntimeExpression, extractRequestDataFromArgs, getAuthOptions and
the response-handling pipeline). The TypeScript source is embedded
shallowly: JavaScript runtime values become the inductive type V, objects
become association lists whose update operation mirrors JS property
assignment, and each block of the resolver body becomes one Lean
function. External utilities that live outside the embedded module
(Oas3Tools.sanitize, JSON.parse, JSONPath) are modelled on the fragment
of their behavior the resolver exercises, as noted on each definition.
-/

set_option maxHeartbeats 1000000

namespace OpenAPIGraphQL

/-- JavaScript-like runtime values: undefined, null, booleans, numbers
(integers suffice for every value the resolver manipulates), strings,
arrays and string-keyed objects. -/
inductive V where
  | undef
  | null
  | bool (b : Bool)
  | num (n : Int)
  | str (s : String)
  | arr (elems : List V)
  | obj (fields : List (String × V))

/-- Property read on a JS object field list: first matching key. -/
def getField : List (String × V) → String → Option V
  | [], _ => none
  | (k, v) :: rest, key => if k = key then some v else getField rest key

/-- Property write on a JS object field list: overwrite in place when
the key exists (JS objects keep the original insertion position),
append otherwise. -/
def setField : List (String × V) → String → V → List (String × V)
  | [], key, v => [(key, v)]
  | (k, w) :: rest, key, v =>
      if k = key then (k, v) :: rest else (k, w) :: setField rest key v

/-- Object.assign(target, source): copy every own property of source
onto target, in source order, later writes winning. -/
def assignFields (target source : List (String × V)) : List (String × V) :=
  source.foldl (fun t kv => setField t kv.1 kv.2) target

/-- JS truthiness: undefined, null, false, 0 and the empty string are
falsy; everything else is truthy. -/
def jsTruthy : V → Bool
  | V.undef => false
  | V.null => false
  | V.bool b => b
  | V.num n => n != 0
  | V.str s => s ≠ ""
  | V.arr _ => true
  | V.obj _ => true

/-- typeof v === "object": true for null, arrays and objects. -/
def jsTypeofObject : V → Bool
  | V.null => true
  | V.arr _ => true
  | V.obj _ => true
  | _ => false

mutual
/-- JS string coercion String(v), as used when substituting path
parameters and link-parameter text. Arrays join their elements with
commas (null and undefined joining as empty text), objects coerce to
the standard object tag. -/
def jsToString : V → String
  | V.undef => "undefined"
  | V.null => "null"
  | V.bool b => if b then "true" else "false"
  | V.num n => toString n
  | V.str s => s
  | V.arr xs => jsToStringElems xs
  | V.obj _ => "[object Object]"

/-- Comma join of array elements under JS array-to-string coercion. -/
def jsToStringElems : List V → String
  | [] => ""
  | [V.undef] => ""
  | [V.null] => ""
  | [v] => jsToString v
  | V.undef :: rest => "," ++ jsToStringElems rest
  | V.null :: rest => "," ++ jsToStringElems rest
  | v :: rest => jsToString v ++ "," ++ jsToStringElems rest
end

/-- Substring occurrence on character lists: does pat occur inside l. -/
def occursInL (pat : List Char) : List Char → Bool
  | [] => pat.isEmpty
  | c :: rest => List.isPrefixOf pat (c :: rest) || occursInL pat rest

/-- JS s.includes(t): t occurs as a contiguous substring of s. -/
def strIncludes (s t : String) : Bool := occursInL t.data s.data

/-- JS s.startsWith(pre). -/
def strStartsWith (s pre : String) : Bool := List.isPrefixOf pre.data s.data

/-- JS String.prototype.split with a nonempty string separator (fuel
is the input length, always sufficient since a match consumes at least
one character). -/
def splitOnAux (sep : List Char) : Nat → List Char → List Char → List (List Char)
  | _, [], acc => [acc.reverse]
  | 0, l, acc => [acc.reverse ++ l]
  | f + 1, c :: rest, acc =>
      if List.isPrefixOf sep (c :: rest) then
        acc.reverse :: splitOnAux sep f (List.drop sep.length (c :: rest)) []
      else splitOnAux sep f rest (c :: acc)

def splitOnStr (s sep : String) : List String :=
  if sep = "" then [s]
  else (splitOnAux sep.data s.data.length s.data []).map String.mk

/-- JS String.prototype.replace with a plain-string pattern: replace the
first occurrence only (an empty pattern matches at the start). -/
def replaceFirstL (pat rep : List Char) : List Char → List Char
  | [] => if pat.isEmpty then rep else []
  | c :: rest =>
      if List.isPrefixOf pat (c :: rest) then rep ++ (c :: rest).drop pat.length
      else c :: replaceFirstL pat rep rest

def replaceFirst (s pat rep : String) : String :=
  String.mk (replaceFirstL pat.data rep.data s.data)

/-- Scan for the closing brace of a regex match of \x7b[^\x7d]*\x7d:
returns the characters before the first closing brace and the remainder
after it. -/
def takeUntilClose : List Char → Option (List Char × List Char)
  | [] => none
  | c :: rest =>
      if c = '}' then some ([], rest)
      else
        match takeUntilClose rest with
        | some (inner, rem) => some (c :: inner, rem)
        | none => none

/-- All matches of the global regex \x7b[^\x7d]*\x7d in order, each
including its braces, as used on link-parameter values. -/
def braceMatchesAux : Nat → List Char → List (List Char)
  | 0, _ => []
  | _ + 1, [] => []
  | f + 1, c :: rest =>
      if c = '{' then
        match takeUntilClose rest with
        | some (inner, rem) => ('{' :: (inner ++ ['}'])) :: braceMatchesAux f rem
        | none => []
      else braceMatchesAux f rest

def braceMatches (s : String) : List String :=
  (braceMatchesAux s.length s.data).map String.mk

/-- JSON whitespace skipping for the parser. -/
def skipWs : List Char → List Char
  | [] => []
  | c :: rest =>
      if c = ' ' || c = '\n' || c = '\t' || c = '\r' then skipWs rest else c :: rest

/-- Decimal digit run with its value; none when no leading digit. -/
def parseDigitsAux : List Char → Nat → Nat × List Char
  | [], acc => (acc, [])
  | c :: rest, acc =>
      if c.isDigit then parseDigitsAux rest (acc * 10 + (c.toNat - 48)) else (acc, c :: rest)

def parseNum : List Char → Option (Int × List Char)
  | '-' :: c :: rest =>
      if c.isDigit then
        let (n, r) := parseDigitsAux (c :: rest) 0
        some (-(n : Int), r)
      else none
  | c :: rest =>
      if c.isDigit then
        let (n, r) := parseDigitsAux (c :: rest) 0
        some ((n : Int), r)
      else none
  | [] => none

/-- String literal body: characters up to the closing quote. Models
JSON.parse on the escape-free fragment the resolver exercises. -/
def parseStrChars : List Char → Option (String × List Char)
  | [] => none
  | c :: rest =>
      if c = '"' then some ("", rest)
      else if c = '\\' then none
      else (parseStrChars rest).map (fun p => (String.mk (c :: p.1.data), p.2))

mutual
/-- Recursive-descent JSON value parser (fuel-indexed). Models the JS
builtin JSON.parse on the core grammar: null, booleans, integers,
escape-free strings, arrays and objects. -/
def parseVal : Nat → List Char → Option (V × List Char)
  | 0, _ => none
  | f + 1, l =>
      match skipWs l with
      | 'n' :: 'u' :: 'l' :: 'l' :: rest => some (V.null, rest)
      | 't' :: 'r' :: 'u' :: 'e' :: rest => some (V.bool true, rest)
      | 'f' :: 'a' :: 'l' :: 's' :: 'e' :: rest => some (V.bool false, rest)
      | '"' :: rest => (parseStrChars rest).map (fun p => (V.str p.1, p.2))
      | '[' :: rest =>
          (match skipWs rest with
           | ']' :: r2 => some (V.arr [], r2)
           | l2 => parseArrElems f l2 [])
      | '{' :: rest =>
          (match skipWs rest with
           | '}' :: r2 => some (V.obj [], r2)
           | l2 => parseObjFields f l2 [])
      | l' => (parseNum l').map (fun p => (V.num p.1, p.2))

def parseArrElems : Nat → List Char → List V → Option (V × List Char)
  | 0, _, _ => none
  | f + 1, l, acc =>
      match parseVal f l with
      | none => none
      | some (v, r) =>
          match skipWs r with
          | ',' :: rest => parseArrElems f rest (acc ++ [v])
          | ']' :: rest => some (V.arr (acc ++ [v]), rest)
          | _ => none

def parseObjFields : Nat → List Char → List (String × V) → Option (V × List Char)
  | 0, _, _ => none
  | f + 1, l, acc =>
      match skipWs l with
      | '"' :: rest =>
          match parseStrChars rest with
          | none => none
          | some (key, r1) =>
              match skipWs r1 with
              | ':' :: r2 =>
                  (match parseVal f r2 with
                   | none => none
                   | some (v, r3) =>
                       match skipWs r3 with
                       | ',' :: rest2 => parseObjFields f rest2 (acc ++ [(key, v)])
                       | '}' :: rest2 => some (V.obj (acc ++ [(key, v)]), rest2)
                       | _ => none)
              | _ => none
      | _ => none
end

/-- JSON.parse: whole-input parse, generous fuel. -/
def jsonParse (s : String) : Option V :=
  match parseVal (2 * s.length + 8) s.data with
  | some (v, rest) => if (skipWs rest).isEmpty then some v else none
  | none => none

mutual
/-- JSON.stringify. Returns none for a top-level undefined, drops
object fields whose value is undefined, and writes undefined array
elements as null, as the JS builtin does. String escaping is not
modelled (no payload in this development contains quotes). -/
def jsonStringify : V → Option String
  | V.undef => none
  | V.null => some "null"
  | V.bool b => some (if b then "true" else "false")
  | V.num n => some (toString n)
  | V.str s => some ("\"" ++ s ++ "\"")
  | V.arr xs => some ("[" ++ stringifyElems xs ++ "]")
  | V.obj fs => some ("\x7b" ++ stringifyFields fs ++ "\x7d")

def stringifyElems : List V → String
  | [] => ""
  | [v] => (jsonStringify v).getD "null"
  | v :: rest => (jsonStringify v).getD "null" ++ "," ++ stringifyElems rest

def stringifyFields : List (String × V) → String
  | [] => ""
  | (k, v) :: rest =>
      match jsonStringify v with
      | none => stringifyFields rest
      | some sv =>
          let entry := "\"" ++ k ++ "\":" ++ sv
          if (stringifyFields rest) = "" then entry else entry ++ "," ++ stringifyFields rest
end

/-- Identifier case styles of Oas3Tools.CaseStyle used by the resolver. -/
inductive CaseStyle where
  | camelCase
  | simple

def isAlphanumeric (c : Char) : Bool := c.isAlpha || c.isDigit

def capitalizeHead (s : String) : String :=
  match s.data with
  | [] => ""
  | c :: rest => String.mk (c.toUpper :: rest)

def lowercaseHead (s : String) : String :=
  match s.data with
  | [] => ""
  | c :: rest => String.mk (c.toLower :: rest)

/-- The maximal alphanumeric runs of a name, in order: the word parts
the camelCase style joins. -/
def camelPartsAux : List Char → List Char → List String
  | [], acc => if acc.isEmpty then [] else [String.mk acc.reverse]
  | c :: rest, acc =>
      if isAlphanumeric c then camelPartsAux rest (c :: acc)
      else if acc.isEmpty then camelPartsAux rest []
      else String.mk acc.reverse :: camelPartsAux rest []

def underscoreLeadingDigit (s : String) : String :=
  match s.data with
  | c :: _ => if c.isDigit then "_" ++ s else s
  | [] => s

/-- Modelled from the spec: Oas3Tools.sanitize lives in the external
oas_3_tools module. Per the spec, camelCase lowercases the first
letter and capitalizes the letter after each non-alphanumeric
boundary, simple strips non-alphanumeric characters preserving case,
and identifiers that would start with a digit get an underscore. -/
def sanitize (s : String) (style : CaseStyle) : String :=
  match style with
  | CaseStyle.simple => underscoreLeadingDigit (String.mk (s.data.filter isAlphanumeric))
  | CaseStyle.camelCase =>
      match camelPartsAux s.data [] with
      | [] => ""
      | h :: t =>
          underscoreLeadingDigit
            ((lowercaseHead h) ++ String.join (t.map capitalizeHead))

mutual
/-- Modelled from the spec: Oas3Tools.sanitizeObjectKeys recursively
rewrites the keys of a response body to graph-identifier style. -/
def sanitizeObjectKeys (style : CaseStyle) : V → V
  | V.obj fs => V.obj (sanitizeFieldsKeys style fs)
  | V.arr xs => V.arr (sanitizeElemsKeys style xs)
  | v => v

def sanitizeFieldsKeys (style : CaseStyle) : List (String × V) → List (String × V)
  | [] => []
  | (k, v) :: rest =>
      (sanitize k style, sanitizeObjectKeys style v) :: sanitizeFieldsKeys style rest

def sanitizeElemsKeys (style : CaseStyle) : List V → List V
  | [] => []
  | v :: rest => sanitizeObjectKeys style v :: sanitizeElemsKeys style rest
end

/-- Reverse lookup in the sanitized-name map. -/
def desanitizeKey (saneMap : List (String × String)) (k : String) : String :=
  match saneMap.find? (fun kv => kv.1 = k) with
  | some kv => kv.2
  | none => k

mutual
/-- Modelled from the spec: Oas3Tools.desanitizeObjectKeys maps the
sanitized keys of an outbound payload back to the original REST-facing
names recorded in the sanitized-name map. -/
def desanitizeObjectKeys (saneMap : List (String × String)) : V → V
  | V.obj fs => V.obj (desanitizeFieldsKeys saneMap fs)
  | V.arr xs => V.arr (desanitizeElemsKeys saneMap xs)
  | v => v

def desanitizeFieldsKeys (saneMap : List (String × String)) :
    List (String × V) → List (String × V)
  | [] => []
  | (k, v) :: rest =>
      (desanitizeKey saneMap k, desanitizeObjectKeys saneMap v) ::
        desanitizeFieldsKeys saneMap rest

def desanitizeElemsKeys (saneMap : List (String × String)) : List V → List V
  | [] => []
  | v :: rest => desanitizeObjectKeys saneMap v :: desanitizeElemsKeys saneMap rest
end

/-- Walk a dot-separated key path into a value, array steps taking a
numeric index. -/
def jsonPathGo : List String → V → List V
  | [], v => [v]
  | k :: rest, V.obj fs =>
      (match getField fs k with
       | some v => jsonPathGo rest v
       | none => [])
  | k :: rest, V.arr xs =>
      (match k.toNat? with
       | some i =>
           match xs.get? i with
           | some v => jsonPathGo rest v
           | none => []
       | none => [])
  | _, _ => []

/-- Modelled external JSONPath.JSONPath on the fragment the resolver
uses: a plain dot-separated key path yields the list of matches (one
match, or none when a step is missing). -/
def jsonPathLookup (path : String) (j : V) : List V :=
  if path = "" then [] else jsonPathGo (splitOnStr path ".") j

def base64Alphabet : List Char :=
  "ABCDEFGHIJKLMNOPQRSTUVWXYZabcdefghijklmnopqrstuvwxyz0123456789+/".data

def base64CharAt (n : Nat) : String := String.mk [base64Alphabet.getD n '=']

/-- Standard base64 of a byte list, for Buffer.toString of basic-auth
credentials. -/
def base64EncodeBytes : List Nat → String
  | [] => ""
  | [a] =>
      base64CharAt (a / 4) ++ base64CharAt ((a % 4) * 16) ++ "=="
  | [a, b] =>
      base64CharAt (a / 4) ++ base64CharAt ((a % 4) * 16 + b / 16) ++
        base64CharAt ((b % 16) * 4) ++ "="
  | a :: b :: c :: rest =>
      base64CharAt (a / 4) ++ base64CharAt ((a % 4) * 16 + b / 16) ++
        base64CharAt ((b % 16) * 4 + c / 64) ++ base64CharAt (c % 64) ++
        base64EncodeBytes rest

def base64Encode (s : String) : String :=
  base64EncodeBytes (s.toUTF8.toList.map (fun b => b.toNat))

/-! Data model of the resolver inputs, following src/types and the
fields of Operation, PreprocessingData and RequestOptions the resolver
builder reads. -/

/-- An OAS schema fragment as the resolver reads it: only the declared
default matters to the dispatch runtime. The field name mirrors
schema.default in the source. -/
structure SchemaObject where
  default : Option V := none

/-- A parameter schema is either inline or a reference resolved
against the originating document. -/
inductive SchemaOrRef where
  | ref (r : String)
  | inline (s : SchemaObject)

/-- One declared Operation parameter: name, location (the source field
in: path, query, header or cookie) and optional schema. -/
structure ParameterObject where
  name : String
  location : String
  schema : Option SchemaOrRef := none

/-- The security-definition fields getAuthOptions reads. A name of
none models a non-string name value. -/
structure SecuritySchemeDef where
  type : String
  locIn : Option String := none
  name : Option String := none
  scheme : Option String := none

/-- Entry of data.security: the processed scheme holding its raw
definition (field def in the source, sdef here). -/
structure SecurityEntry where
  sdef : SecuritySchemeDef

/-- The Operation fields the resolver builder reads. oasSchemas models
the schema components of operation.oas for resolveRef lookups. -/
structure Operation where
  method : String
  path : String
  operationString : String := ""
  statusCode : String := ""
  payloadContentType : Option String := none
  responseContentType : Option String := none
  parameters : List ParameterObject := []
  securityRequirements : List String := []
  oasSchemas : List (String × SchemaObject) := []

/-- The translation options the resolver builder reads from
data.options. -/
structure DataOptions where
  simpleNames : Bool := false
  addLimitArgument : Bool := false
  genericPayloadArgName : Bool := false
  provideErrorExtensions : Bool := false
  sendOAuthTokenInQuery : Bool := false
  tokenJSONpath : Option String := none
  headers : Option (List (String × V)) := none
  qs : Option (List (String × V)) := none

/-- The PreprocessingData fields the resolver builder reads. -/
structure PreprocessingData where
  options : DataOptions := {}
  security : List (String × SecurityEntry) := []
  saneMap : List (String × String) := []

/-- GraphQL argument objects: sanitized names to values. -/
abbrev Args := List (String × V)

/-- Property read defaulting to undefined, as JS member access does. -/
def argGet (fields : List (String × V)) (k : String) : V :=
  (getField fields k).getD V.undef

def vIsUndef : V → Bool
  | V.undef => true
  | _ => false

/-- Property read through a V value. Reads on primitives yield
undefined; reads on null or undefined would throw in JS and are only
reached in the source behind typeof guards. -/
def vGetProp (v : V) (k : String) : V :=
  match v with
  | V.obj fs => argGet fs k
  | _ => V.undef

/-- The case style chosen by the simpleNames option, as every sanitize
call site of the resolver builder selects it. -/
def caseStyleOf (opts : DataOptions) : CaseStyle :=
  if !opts.simpleNames then CaseStyle.camelCase else CaseStyle.simple

/-- The hidden per-branch property name. -/
def OPENAPI_TO_GRAPHQL : String := "_openAPIToGraphQL"

/-- Modelled external Oas3Tools.resolveRef: look a reference string up
among the schema components of the originating document. -/
def resolveSchemaOrRef (op : Operation) : SchemaOrRef → Option SchemaObject
  | SchemaOrRef.ref r => (op.oasSchemas.find? (fun kv => kv.1 = r)).map (fun kv => kv.2)
  | SchemaOrRef.inline s => some s

/-- Default filling for one declared parameter (the body of the
operation.parameters.forEach at the start of the resolver): when the
sanitized argument is undefined and the resolved schema declares a
default that passes the truthiness test schema.default && typeof
schema.default !== "undefined", write it into the arguments. -/
def defaultValueStep (op : Operation) (data : PreprocessingData)
    (args : Args) (param : ParameterObject) : Args :=
  let saneParamName := sanitize param.name (caseStyleOf data.options)
  if vIsUndef (argGet args saneParamName) then
    match param.schema with
    | some schemaOrRef =>
        match resolveSchemaOrRef op schemaOrRef with
        | some schema =>
            match schema.default with
            | some d => if jsTruthy d then setField args saneParamName d else args
            | none => args
        | none => args
    | none => args
  else args

/-- Lines 248 to 276 of the resolver: handle default values of
parameters not yet defined by the user. -/
def handleDefaultValues (op : Operation) (data : PreprocessingData) (args : Args) : Args :=
  op.parameters.foldl (defaultValueStep op data) args

/-- OAS runtime expression reference locations (source constant). -/
def RUNTIME_REFERENCES : List String := ["header.", "query.", "path.", "body"]

/-- Source isRuntimeExpression: checks a link-parameter string against
the closed set of runtime-expression prefixes. -/
def isRuntimeExpression (str : String) : Bool :=
  if str = "$url" || str = "$method" || str = "$statusCode" then true
  else if strStartsWith str "$request." then
    RUNTIME_REFERENCES.any (fun r => strStartsWith str ("$request." ++ r))
  else if strStartsWith str "$response." then
    RUNTIME_REFERENCES.any (fun r => strStartsWith str ("$response." ++ r))
  else false

/-- The RequestOptions record handed to the transport (src/types/request). -/
structure RequestOptionsModel where
  method : String := ""
  url : String := ""
  headers : List (String × V) := []
  qs : List (String × V) := []
  body : Option V := none

/-- The per-branch ResolveData record accumulated by the resolver. -/
structure ResolveData where
  usedParams : Args := []
  usedPayload : V := V.undef
  usedRequestOptions : RequestOptionsModel := {}
  usedStatusCode : String := ""
  responseHeaders : List (String × String) := []

/-- The extensions payload attached to a failed-invocation error when
provideErrorExtensions is set. -/
structure ErrorExtensions where
  method : String
  path : String
  statusCode : Int
  responseHeaders : List (String × String)
  responseBody : V

/-- Every throw site of the resolver builder, one constructor per
distinct failure. The taxonomy names of the spec map onto these:
contentTypeMismatch, jsonParseFailed and noContentTypeHeader are the
ProtocolError cases, limitNegative is the ValidationError case, and
authenticationMissing is the AuthenticationError case.
attachTypeError is the TypeError the runtime raises inside the
record-attachment forEach when an array element is null or a
primitive (lines 577 to 596). -/
inductive ResolverError where
  | invalidRuntimeExpression (value : String)
  | matchTypeError
  | authenticationMissing
  | apiKeyBadName (loc : String)
  | badHttpScheme (scheme : String)
  | badSecurityType (t : String)
  | undefinedLookupError
  | invocationError (extensions : Option ErrorExtensions)
  | contentTypeMismatch (declared received : String)
  | jsonParseFailed
  | noContentTypeHeader
  | limitNegative
  | limitMissing
  | attachTypeError

mutual
/-- JSON.parse composed with JSON.stringify on an acyclic value: the
deep copy the source takes of a parent result or record. Object fields
holding undefined are dropped and undefined array elements become
null, as the JS builtins do. -/
def jsonRoundTrip : V → V
  | V.obj fs => V.obj (roundTripFields fs)
  | V.arr xs => V.arr (roundTripElems xs)
  | v => v

def roundTripFields : List (String × V) → List (String × V)
  | [] => []
  | (_, V.undef) :: rest => roundTripFields rest
  | (k, v) :: rest => (k, jsonRoundTrip v) :: roundTripFields rest

def roundTripElems : List V → List V
  | [] => []
  | V.undef :: rest => V.null :: roundTripElems rest
  | v :: rest => jsonRoundTrip v :: roundTripElems rest
end

/-- Property write through a V value. Writes on non-objects are
dropped (on primitives they are invisible; the source performs them
only on objects). -/
def jsSetProp (v : V) (k : String) (w : V) : V :=
  match v with
  | V.obj fs => V.obj (setField fs k w)
  | other => other

/-- Source resolveRuntimeExpression: determine the value of a link
parameter from the runtime expression, the recovered ResolveData and
the parent result. A body pointer with zero matches logs a warning and
falls through to the trailing throw, surfaced here as
invalidRuntimeExpression. -/
def resolveRuntimeExpression (paramName value : String) (resolveData : ResolveData)
    (root : V) (args : Args) : Except ResolverError V :=
  if value = "$url" then Except.ok (V.str resolveData.usedRequestOptions.url)
  else if value = "$method" then Except.ok (V.str resolveData.usedRequestOptions.method)
  else if value = "$statusCode" then Except.ok (V.str resolveData.usedStatusCode)
  else if strStartsWith value "$request." then
    if value = "$request.body" then Except.ok resolveData.usedPayload
    else if strStartsWith value "$request.body#" then
      match jsonPathLookup ((splitOnStr value "body#/").getD 1 "") resolveData.usedPayload with
      | t :: _ => Except.ok t
      | [] => Except.error (ResolverError.invalidRuntimeExpression value)
    else if strStartsWith value "$request.query" then
      Except.ok (argGet resolveData.usedParams
        (sanitize ((splitOnStr value "query.").getD 1 "") CaseStyle.camelCase))
    else if strStartsWith value "$request.path" then
      Except.ok (argGet resolveData.usedParams
        (sanitize ((splitOnStr value "path.").getD 1 "") CaseStyle.camelCase))
    else if strStartsWith value "$request.header" then
      Except.ok (argGet resolveData.usedRequestOptions.headers
        ((splitOnStr value "header.").getD 1 ""))
    else Except.error (ResolverError.invalidRuntimeExpression value)
  else if strStartsWith value "$response." then
    if value = "$response.body" then
      Except.ok (jsSetProp (jsonRoundTrip root) OPENAPI_TO_GRAPHQL V.undef)
    else if strStartsWith value "$response.body#" then
      match jsonPathLookup ((splitOnStr value "body#/").getD 1 "") root with
      | t :: _ => Except.ok t
      | [] => Except.error (ResolverError.invalidRuntimeExpression value)
    else if strStartsWith value "$response.query" then
      Except.ok (argGet resolveData.usedParams
        (sanitize ((splitOnStr value "query.").getD 1 "") CaseStyle.camelCase))
    else if strStartsWith value "$response.path" then
      Except.ok (argGet resolveData.usedParams
        (sanitize ((splitOnStr value "path.").getD 1 "") CaseStyle.camelCase))
    else if strStartsWith value "$response.header" then
      Except.ok
        (match (resolveData.responseHeaders.find?
            (fun kv => kv.1 = (splitOnStr value "header.").getD 1 "")) with
         | some kv => V.str kv.2
         | none => V.undef)
    else Except.error (ResolverError.invalidRuntimeExpression value)
  else Except.error (ResolverError.invalidRuntimeExpression value)

/-- linkParam.substring(1, linkParam.length - 1): strip the braces. -/
def stripEnds (s : String) : String := String.mk ((s.data.drop 1).dropLast)

/-- One iteration of the argsFromLink loop (lines 279 to 326): a value
with no brace characters is taken whole (resolved when it is a runtime
expression, literal otherwise); a value with braces has each regex
match of a braced expression resolved and substituted in place. A
brace-bearing value with no full match reproduces the null.forEach
TypeError of the source. -/
def handleLinkArgument (data : PreprocessingData) (resolveData : ResolveData)
    (source : V) (args : Args) (paramName value : String) : Except ResolverError Args :=
  let saneParamName := sanitize paramName (caseStyleOf data.options)
  if !(strIncludes value "\x7b") && !(strIncludes value "\x7d") then
    if isRuntimeExpression value then
      match resolveRuntimeExpression paramName value resolveData source args with
      | Except.ok v => Except.ok (setField args saneParamName v)
      | Except.error e => Except.error e
    else Except.ok (setField args saneParamName (V.str value))
  else
    match braceMatches value with
    | [] => Except.error ResolverError.matchTypeError
    | ms =>
        (ms.foldlM (fun acc linkParam => do
            let resolved ← resolveRuntimeExpression paramName (stripEnds linkParam)
              resolveData source args
            pure (replaceFirst acc linkParam (jsToString resolved))) value).map
          (fun final => setField args saneParamName (V.str final))

/-- Lines 279 to 326: handle arguments provided by links, in
declaration order, later parameters seeing earlier assignments. -/
def handleLinkArguments (data : PreprocessingData) (resolveData : ResolveData)
    (source : V) (argsFromLink : List (String × String)) (args : Args) :
    Except ResolverError Args :=
  argsFromLink.foldlM
    (fun a kv => handleLinkArgument data resolveData source a kv.1 kv.2) args

/-- Result record of extractRequestDataFromArgs. -/
structure ExtractedRequestData where
  path : String
  qs : List (String × V) := []
  headers : List (String × V) := []

/-- One parameter of the extractRequestDataFromArgs loop: substitute a
path placeholder, or record a query, header or cookie value, skipping
parameters whose sanitized name is empty or absent from the arguments
and parameters with an unsupported location. -/
def extractStep (data : PreprocessingData) (args : Args)
    (acc : ExtractedRequestData) (param : ParameterObject) : ExtractedRequestData :=
  let saneParamName := sanitize param.name (caseStyleOf data.options)
  if saneParamName ≠ "" && (getField args saneParamName).isSome then
    match param.location with
    | "path" =>
        let newPath :=
          replaceFirst acc.path ("\x7b" ++ param.name ++ "\x7d")
            (jsToString (argGet args saneParamName))
        { acc with path := newPath }
    | "query" => { acc with qs := setField acc.qs param.name (argGet args saneParamName) }
    | "header" =>
        let newHeaders := setField acc.headers param.name (argGet args saneParamName)
        { acc with headers := newHeaders }
    | "cookie" =>
        let cur := match getField acc.headers "cookie" with
          | some v => jsToString v
          | none => ""
        let newHeaders :=
          setField acc.headers "cookie"
            (V.str (cur ++ param.name ++ "=" ++ jsToString (argGet args saneParamName) ++ "; "))
        { acc with headers := newHeaders }
    | _ => acc
  else acc

/-- Source extractRequestDataFromArgs: replaces path parameters in the
given path and collects the query-string and header mappings. -/
def extractRequestDataFromArgs (path : String) (parameters : List ParameterObject)
    (args : Args) (data : PreprocessingData) : ExtractedRequestData :=
  parameters.foldl (extractStep data args) { path := path }

/-- Result record of getAuthOptions. -/
structure AuthOptions where
  authHeaders : List (String × V) := []
  authQs : List (String × V) := []
  authCookie : Option String := none

/-- Result record of getAuthReqAndProtcolName. -/
structure AuthReqAndProtcolName where
  authRequired : Bool
  securityRequirement : Option String := none
  sanitizedSecurityRequirement : Option String := none

/-- Source getAuthReqAndProtcolName: authentication is required when
the Operation declares any security requirement; the first requirement
whose sanitized name maps to an object in the hidden security map is
selected. -/
def getAuthReqAndProtcolName (operation : Operation) (otg : V) : AuthReqAndProtcolName :=
  if operation.securityRequirements.length > 0 then
    match operation.securityRequirements.find? (fun r =>
        jsTypeofObject (vGetProp (vGetProp otg "security") (sanitize r CaseStyle.camelCase))) with
    | some r =>
        { authRequired := true, securityRequirement := some r,
          sanitizedSecurityRequirement := some (sanitize r CaseStyle.camelCase) }
    | none => { authRequired := true }
  else { authRequired := false }

/-- Source getAuthOptions: headers, query parameters and cookie that
authenticate a request, or the corresponding throw. -/
def getAuthOptions (operation : Operation) (otg : V) (data : PreprocessingData) :
    Except ResolverError AuthOptions :=
  let r := getAuthReqAndProtcolName operation otg
  if !r.authRequired then Except.ok {}
  else
    match r.securityRequirement with
    | none => Except.error ResolverError.authenticationMissing
    | some securityRequirement =>
        let saneReq := r.sanitizedSecurityRequirement.getD ""
        match (data.security.find? (fun kv => kv.1 = securityRequirement)).map
            (fun kv => kv.2) with
        | none => Except.error ResolverError.undefinedLookupError
        | some security =>
            match security.sdef.type with
            | "apiKey" =>
                let apiKey := vGetProp (vGetProp (vGetProp otg "security") saneReq) "apiKey"
                (match security.sdef.locIn with
                 | some loc =>
                     match security.sdef.name with
                     | some n =>
                         if loc = "header" then Except.ok { authHeaders := [(n, apiKey)] }
                         else if loc = "query" then Except.ok { authQs := [(n, apiKey)] }
                         else if loc = "cookie" then
                           Except.ok { authCookie := some (n ++ "=" ++ jsToString apiKey) }
                         else Except.ok {}
                     | none => Except.error (ResolverError.apiKeyBadName loc)
                 | none => Except.ok {})
            | "http" =>
                (match security.sdef.scheme with
                 | some "basic" =>
                     let creds := vGetProp (vGetProp otg "security") saneReq
                     let credentials :=
                       jsToString (vGetProp creds "username") ++ ":" ++
                         jsToString (vGetProp creds "password")
                     Except.ok
                       { authHeaders :=
                           [("Authorization", V.str ("Basic " ++ base64Encode credentials))] }
                 | some s => Except.error (ResolverError.badHttpScheme s)
                 | none => Except.error (ResolverError.badHttpScheme "undefined"))
            | "oauth2" => Except.ok {}
            | "openIdConnect" => Except.ok {}
            | t => Except.error (ResolverError.badSecurityType t)

/-- Source extractToken: look the OAuth token up in the caller context
at the configured JSON path. -/
def extractToken (data : PreprocessingData) (context : V) : List (String × V) :=
  match data.options.tokenJSONpath with
  | none => []
  | some p =>
      match jsonPathLookup p context with
      | t :: _ => [("access_token", t)]
      | [] => []

/-- Source createOAuthQS: a query-string object holding the extracted
OAuth token, or empty when no token path is configured. -/
def createOAuthQS (data : PreprocessingData) (context : V) : List (String × V) :=
  match data.options.tokenJSONpath with
  | none => []
  | some _ => extractToken data context

/-- Source createOAuthHeader: a bearer Authorization header from the
extracted OAuth token, or empty. -/
def createOAuthHeader (data : PreprocessingData) (context : V) : List (String × V) :=
  match data.options.tokenJSONpath with
  | none => []
  | some p =>
      match jsonPathLookup p context with
      | t :: _ =>
          [("Authorization", V.str ("Bearer " ++ jsToString t)),
           ("User-Agent", V.str "openapi-to-graphql")]
      | [] => []

/-- Modelled external form-urlencoded encoder on the fragment used:
top-level keys joined by ampersands (no percent-encoding is needed by
any payload in this development). -/
def formUrlEncode (v : V) : String :=
  match v with
  | V.obj fs => String.intercalate "&" (fs.map (fun kv => kv.1 ++ "=" ++ jsToString kv.2))
  | other => jsToString other

/-- The per-call request options handed to getResolver
(Partial of RequestOptions). -/
structure PartialRequestOptions where
  headers : Option (List (String × V)) := none
  qs : Option (List (String × V)) := none
  body : Option V := none

def HTTP_METHODS_get : String := "get"

/-- Lines 332 to 470 of the resolver: build the dispatched request.
The fixed content-type and accept headers are written first (content
type only for non-GET operations), then the per-call requestOptions
headers and query are merged over them, then the payload is encoded,
then the static option headers and query are merged, then the
authentication values from the hidden security map, then the OAuth
token. Returns the options record and the raw payload recorded as
usedPayload. -/
def buildRequestOptions (operation : Operation) (data : PreprocessingData)
    (payloadName : Option String) (requestOptions : Option PartialRequestOptions)
    (sourceOtg : Option V) (context : V) (baseUrl : String) (args : Args) :
    Except ResolverError (RequestOptionsModel × V) :=
  let extracted := extractRequestDataFromArgs operation.path operation.parameters args data
  let url := baseUrl ++ extracted.path
  let headers1 :=
    if operation.method ≠ HTTP_METHODS_get then
      setField extracted.headers "content-type"
        (V.str (operation.payloadContentType.getD "application/json"))
    else extracted.headers
  let headers2 :=
    setField headers1 "accept" (V.str (operation.responseContentType.getD "application/json"))
  -- per-call request options merge (lines 359 to 388), field by field as
  -- the source mutates options.headers and options.qs in place
  let headersRO := match requestOptions with
    | some ro =>
        (match ro.headers with
         | some roh => assignFields (assignFields [] headers2) roh
         | none => headers2)
    | none => headers2
  let qsRO := match requestOptions with
    | some ro =>
        (match ro.qs with
         | some roq => assignFields (assignFields [] extracted.qs) roq
         | none => extracted.qs)
    | none => extracted.qs
  let bodyRO : Option V := match requestOptions with
    | some ro => ro.body
    | none => none
  -- payload encoding (lines 396 to 420)
  let usedPayloadV : V := match payloadName with
    | some pn =>
        let sanePayloadName :=
          if data.options.genericPayloadArgName then "requestBody"
          else sanitize pn CaseStyle.camelCase
        if operation.payloadContentType = some "application/json" then
          match jsonStringify (desanitizeObjectKeys data.saneMap
              (argGet args sanePayloadName)) with
          | some s => V.str s
          | none => V.undef
        else if operation.payloadContentType = some "application/x-www-form-urlencoded" then
          V.str (formUrlEncode (desanitizeObjectKeys data.saneMap
            (argGet args sanePayloadName)))
        else argGet args sanePayloadName
    | none => V.undef
  let bodyP : Option V := match payloadName with
    | some _ => some usedPayloadV
    | none => bodyRO
  -- static option headers and query string (lines 425 to 435)
  let headersST := match data.options.headers with
    | some hs => assignFields headersRO hs
    | none => headersRO
  let qsST := match data.options.qs with
    | some q => assignFields qsRO q
    | none => qsRO
  -- authentication (lines 437 to 461)
  let authRes : Except ResolverError (List (String × V) × List (String × V)) :=
    match sourceOtg with
    | some otg =>
        (match getAuthOptions operation otg data with
         | Except.error e => Except.error e
         | Except.ok auth =>
             let h1 := assignFields headersST auth.authHeaders
             let q1 := assignFields qsST auth.authQs
             let h2 := match auth.authCookie with
               | some c =>
                   let cur := argGet h1 "cookie"
                   if jsTruthy cur then setField h1 "cookie" (V.str (jsToString cur ++ c))
                   else setField h1 "cookie" (V.str c)
               | none => h1
             Except.ok (h2, q1))
    | none => Except.ok (headersST, qsST)
  match authRes with
  | Except.error e => Except.error e
  | Except.ok (headersAU, qsAU) =>
      -- OAuth token (lines 463 to 470)
      let headersF :=
        if data.options.sendOAuthTokenInQuery then headersAU
        else assignFields headersAU (createOAuthHeader data context)
      let qsF :=
        if data.options.sendOAuthTokenInQuery then
          assignFields qsAU (createOAuthQS data context)
        else qsAU
      Except.ok
        ({ method := operation.method, url := url, headers := headersF, qs := qsF,
           body := bodyP }, usedPayloadV)

/-- The transport response (src/types/request Response), body still a
raw string. -/
structure HttpResponse where
  statusCode : Int
  headers : List (String × String)
  body : String

/-- The request options record as a JS value, for storage inside the
per-branch record. -/
def requestOptionsToV (o : RequestOptionsModel) : V :=
  V.obj
    ([("method", V.str o.method), ("url", V.str o.url), ("headers", V.obj o.headers),
      ("qs", V.obj o.qs)] ++
      (match o.body with
       | some b => [("body", b)]
       | none => []))

/-- The ResolveData record as a JS value, as it is attached onto a
shaped result. -/
def resolveDataToV (rd : ResolveData) : V :=
  V.obj
    [("usedParams", V.obj rd.usedParams),
     ("usedPayload", rd.usedPayload),
     ("usedRequestOptions", requestOptionsToV rd.usedRequestOptions),
     ("usedStatusCode", V.str rd.usedStatusCode),
     ("responseHeaders", V.obj (rd.responseHeaders.map (fun kv => (kv.1, V.str kv.2))))]

/-- One element of the pass-on phase (lines 574 to 619): ensure the
hidden record object exists, merge the parent record over it, and
store the current ResolveData under the current path identifier.
A null or undefined element throws a TypeError at the very first
property read (line 578); a boolean, number or string element throws
a TypeError at the property write on a primitive (line 579, the
modules run in strict mode; in sloppy mode the write is dropped and
the data read on undefined at line 596 throws instead). An array
element is an object to the runtime, so the writes succeed; the
attached record lands in a non-index property that the JSON layer
never serializes, so the element is unchanged as a JSON value. -/
def attachElement (sourceOtg : Option V) (identifier : String) (resolveDataV : V)
    (element : V) : Except ResolverError V :=
  match element with
  | V.obj fs =>
      let fs1 :=
        if vIsUndef (argGet fs OPENAPI_TO_GRAPHQL) then
          setField fs OPENAPI_TO_GRAPHQL (V.obj [("data", V.obj [])])
        else fs
      let fs2 :=
        match sourceOtg with
        | some (V.obj sfs) =>
            (match argGet fs1 OPENAPI_TO_GRAPHQL with
             | V.obj eotg => setField fs1 OPENAPI_TO_GRAPHQL (V.obj (assignFields eotg sfs))
             | _ => fs1)
        | _ => fs1
      let fs3 :=
        match argGet fs2 OPENAPI_TO_GRAPHQL with
        | V.obj eotg =>
            (match argGet eotg "data" with
             | V.obj dfs =>
                 setField fs2 OPENAPI_TO_GRAPHQL
                   (V.obj (setField eotg "data" (V.obj (setField dfs identifier resolveDataV))))
             | _ => fs2)
        | _ => fs2
      Except.ok (V.obj fs3)
  | V.arr xs => Except.ok (V.arr xs)
  | _ => Except.error ResolverError.attachTypeError

/-- The forEach of lines 577 to 597 over the elements of an array
response: attach the record to each element in order, stopping at the
first element whose attachment throws. -/
def attachList (sourceOtg : Option V) (identifier : String) (resolveDataV : V) :
    List V → Except ResolverError (List V)
  | [] => Except.ok []
  | x :: xs =>
      match attachElement sourceOtg identifier resolveDataV x with
      | Except.error e => Except.error e
      | Except.ok y =>
          match attachList sourceOtg identifier resolveDataV xs with
          | Except.error e => Except.error e
          | Except.ok ys => Except.ok (y :: ys)

/-- Lines 574 to 619: pass the hidden per-branch record on to the
shaped result, per element for arrays, once for a plain object.
A primitive or null top-level value is left alone, as the source
guard at line 575 requires. -/
def passOnOpenAPIToGraphQL (sourceOtg : Option V) (identifier : String)
    (resolveDataV : V) (saneData : V) : Except ResolverError V :=
  match saneData with
  | V.arr xs =>
      match attachList sourceOtg identifier resolveDataV xs with
      | Except.error e => Except.error e
      | Except.ok ys => Except.ok (V.arr ys)
  | V.obj fs => attachElement sourceOtg identifier resolveDataV (V.obj fs)
  | v => Except.ok v

/-- JS limit >= 0 on the values an Int-typed auto-generated limit
argument can take; every non-number compares false as NaN does. -/
def jsGEZero : V → Bool
  | V.num n => decide (0 ≤ n)
  | _ => false

/-- Lines 621 to 659: apply the auto-generated limit argument when the
option is on, the Operation declares no parameter named limit, and the
shaped data is an array containing an object; a supplied non-negative
limit truncates, a negative one throws, and a missing one throws. -/
def applyLimitArgument (data : PreprocessingData) (operation : Operation)
    (args : Args) (saneData : V) : Except ResolverError V :=
  let guard :=
    data.options.addLimitArgument &&
      !(operation.parameters.any (fun p => p.name = "limit")) &&
      (match saneData with
       | V.arr xs => xs.any jsTypeofObject
       | _ => false)
  if guard then
    match getField args "limit" with
    | some limit =>
        if jsGEZero limit then
          match saneData, limit with
          | V.arr xs, V.num n => Except.ok (V.arr (xs.take n.toNat))
          | sd, _ => Except.ok sd
        else Except.error ResolverError.limitNegative
    | none => Except.error ResolverError.limitMissing
  else Except.ok saneData

/-- Whether a resolver outcome is a success (a returned value rather
than a thrown error). -/
def resolverOk : Except ResolverError V → Bool
  | Except.ok _ => true
  | Except.error _ => false

/-- Lines 484 to 684: response handling. Non-2xx status codes fail
with the structured or generic invocation error; a present
content-type is validated against the declared one by two-way
substring inclusion; declared-JSON bodies are parsed, key-sanitized,
given the hidden record (failing with a TypeError when an array
element is null or a primitive) and truncated by the limit argument;
non-JSON bodies pass through raw; a missing content-type is an empty
success exactly when no response content type is declared. -/
def handleResponse (operation : Operation) (data : PreprocessingData)
    (sourceOtg : Option V) (identifier : String) (args : Args)
    (resolveData : ResolveData) (response : HttpResponse) : Except ResolverError V :=
  if response.statusCode < 200 || response.statusCode > 299 then
    if data.options.provideErrorExtensions then
      let responseBody := (jsonParse response.body).getD (V.str response.body)
      Except.error (ResolverError.invocationError (some
        { method := operation.method, path := operation.path,
          statusCode := response.statusCode, responseHeaders := response.headers,
          responseBody := responseBody }))
    else Except.error (ResolverError.invocationError none)
  else
    match (response.headers.find? (fun kv => kv.1 = "content-type")).map (fun kv => kv.2) with
    | some ct =>
        let declaredOk : Option Bool :=
          match operation.responseContentType with
          | some declared => some (strIncludes ct declared || strIncludes declared ct)
          | none => if strIncludes ct "undefined" then some true else none
        (match declaredOk with
         | none => Except.error ResolverError.undefinedLookupError
         | some false =>
             Except.error (ResolverError.contentTypeMismatch
               (operation.responseContentType.getD "undefined") ct)
         | some true =>
             if strIncludes ct "application/json" then
               match jsonParse response.body with
               | none => Except.error ResolverError.jsonParseFailed
               | some responseBody =>
                   let resolveData1 := { resolveData with responseHeaders := response.headers }
                   let saneData := sanitizeObjectKeys (caseStyleOf data.options) responseBody
                   match passOnOpenAPIToGraphQL sourceOtg identifier
                       (resolveDataToV resolveData1) saneData with
                   | Except.error e => Except.error e
                   | Except.ok saneData1 => applyLimitArgument data operation args saneData1
             else Except.ok (V.str response.body))
    | none =>
        match operation.responseContentType with
        | none => Except.ok V.null
        | some _ => Except.error ResolverError.noContentTypeHeader

/-- Lines 240 to 473 in order: default filling, link-argument
resolution, recording of the used parameters, and request
construction. resolveData0 is the (already deep-copied) record
recovered from the parent, empty at a root field. Returns the
dispatched options, the updated record and the final arguments. -/
def resolverPrepare (operation : Operation) (data : PreprocessingData)
    (argsFromLink : List (String × String)) (payloadName : Option String)
    (requestOptions : Option PartialRequestOptions) (sourceOtg : Option V)
    (source : V) (context : V) (baseUrl : String) (resolveData0 : ResolveData)
    (args0 : Args) : Except ResolverError (RequestOptionsModel × ResolveData × Args) := do
  let args1 := handleDefaultValues operation data args0
  let args2 ← handleLinkArguments data resolveData0 source argsFromLink args1
  let usedParams1 := assignFields resolveData0.usedParams args2
  let (options, usedPayload) ← buildRequestOptions operation data payloadName
    requestOptions sourceOtg context baseUrl args2
  let rd : ResolveData :=
    { usedParams := usedParams1
      usedPayload := usedPayload
      usedRequestOptions := options
      usedStatusCode := operation.statusCode
      responseHeaders := resolveData0.responseHeaders }
  return (options, rd, args2)

/-! Heap model. The functional embedding above cannot distinguish a
deep copy from an alias, so the context-recovery and record-mutation
steps of the resolver (lines 217 to 243, 329, 396, 418 to 419, 472 to
473 and 564) are embedded a second time over an explicit object heap:
objects are numbered cells, values hold references, JSON.stringify
materializes a cell graph to a tree and JSON.parse allocates fresh
cells for a tree. Whether the mutations of one resolution reach the
record stored on the parent result is then observable. -/

/-- Heap-level JS values: primitives and references to heap cells. -/
inductive JVal where
  | undef
  | jnull
  | jbool (b : Bool)
  | jnum (n : Int)
  | jstr (s : String)
  | jref (r : Nat)
deriving DecidableEq, Repr

abbrev JFields := List (String × JVal)

/-- A heap: the next fresh address and the allocated cells. Arrays are
not needed by the record phase, so every cell is a string-keyed
object. -/
structure Heap where
  next : Nat
  objs : List (Nat × JFields)
deriving DecidableEq, Repr

def lookupObj (h : Heap) (a : Nat) : Option JFields :=
  (h.objs.find? (fun e => e.1 = a)).map (fun e => e.2)

def getFieldJ (fs : JFields) (k : String) : Option JVal :=
  (fs.find? (fun e => e.1 = k)).map (fun e => e.2)

def jArgGet (fs : JFields) (k : String) : JVal := (getFieldJ fs k).getD JVal.undef

def setFieldJ : JFields → String → JVal → JFields
  | [], key, v => [(key, v)]
  | (k, w) :: rest, key, v =>
      if k = key then (k, v) :: rest else (k, w) :: setFieldJ rest key v

/-- Replace the contents of an existing cell. -/
def setEntry : List (Nat × JFields) → Nat → JFields → List (Nat × JFields)
  | [], _, _ => []
  | (b, g) :: rest, a, fs => if b = a then (a, fs) :: rest else (b, g) :: setEntry rest a fs

/-- Property write obj.k = v on the cell at address a; a write to an
unallocated address is dropped (the phase only writes live cells). -/
def writeField (h : Heap) (a : Nat) (k : String) (v : JVal) : Heap :=
  match lookupObj h a with
  | some fs => { h with objs := setEntry h.objs a (setFieldJ fs k v) }
  | none => h

/-- Object.assign(cell a, entries): write every entry in order. -/
def objAssign (h : Heap) (a : Nat) (entries : JFields) : Heap :=
  entries.foldl (fun hh kv => writeField hh a kv.1 kv.2) h

/-- Allocate a fresh cell. -/
def alloc (h : Heap) (fs : JFields) : Heap × Nat :=
  ({ next := h.next + 1, objs := (h.next, fs) :: h.objs }, h.next)

/-- Field materialization under a value reader, dropping fields whose
value is undefined as JSON.stringify does. -/
def readFieldsWith (g : JVal → Option V) : JFields → Option (List (String × V))
  | [] => some []
  | (k, v) :: rest =>
      match v with
      | JVal.undef => readFieldsWith g rest
      | _ =>
          match g v, readFieldsWith g rest with
          | some w, some ws => some ((k, w) :: ws)
          | _, _ => none

/-- JSON.stringify as a tree: follow references, fail (as the cyclic
throw) when the fuel runs out. -/
def readBackV : Nat → Heap → JVal → Option V
  | 0, _, _ => none
  | _ + 1, _, JVal.undef => some V.undef
  | _ + 1, _, JVal.jnull => some V.null
  | _ + 1, _, JVal.jbool b => some (V.bool b)
  | _ + 1, _, JVal.jnum n => some (V.num n)
  | _ + 1, _, JVal.jstr s => some (V.str s)
  | f + 1, h, JVal.jref r =>
      match lookupObj h r with
      | none => none
      | some fs => (readFieldsWith (readBackV f h) fs).map V.obj

/-- State-threading field allocation under a value allocator. -/
def allocFieldsWith (g : Heap → V → Option (Heap × JVal)) :
    Heap → List (String × V) → Option (Heap × JFields)
  | h, [] => some (h, [])
  | h, (k, v) :: rest =>
      match g h v with
      | none => none
      | some (h1, w) =>
          match allocFieldsWith g h1 rest with
          | none => none
          | some (h2, ws) => some (h2, (k, w) :: ws)

/-- JSON.parse of a tree into the heap: fresh cells for objects, and
arrays encoded as index-keyed cells (the array-or-object distinction
is immaterial to the framing property). -/
def allocTreeF : Nat → Heap → V → Option (Heap × JVal)
  | 0, _, _ => none
  | _ + 1, h, V.undef => some (h, JVal.undef)
  | _ + 1, h, V.null => some (h, JVal.jnull)
  | _ + 1, h, V.bool b => some (h, JVal.jbool b)
  | _ + 1, h, V.num n => some (h, JVal.jnum n)
  | _ + 1, h, V.str s => some (h, JVal.jstr s)
  | f + 1, h, V.arr xs =>
      (match allocFieldsWith (allocTreeF f) h
          (xs.enum.map (fun p => (toString p.1, p.2))) with
       | some (h1, gs) => some ((alloc h1 gs).1, JVal.jref (alloc h1 gs).2)
       | none => none)
  | f + 1, h, V.obj fs =>
      (match allocFieldsWith (allocTreeF f) h fs with
       | some (h1, gs) => some ((alloc h1 gs).1, JVal.jref (alloc h1 gs).2)
       | none => none)

/-- The deep copy JSON.parse(JSON.stringify(v)). -/
def deepCopy (fuel : Nat) (h : Heap) (v : JVal) : Option (Heap × JVal) :=
  match readBackV fuel h v with
  | none => none
  | some t => allocTreeF fuel h t

/-- Reference bound on a value, as a Bool for concrete checking. -/
def refBelowB (v : JVal) (n : Nat) : Bool :=
  match v with
  | JVal.jref r => decide (r < n)
  | _ => true

/-- Well-formed heap: every cell sits below the allocation cursor and
references only cells below it. -/
def heapWFB (h : Heap) : Bool :=
  h.objs.all (fun e => decide (e.1 < h.next) && e.2.all (fun kv => refBelowB kv.2 h.next))

/-- Lines 217 to 238: read the record stored on the parent result at
source[_openAPIToGraphQL].data[parentIdentifier]. A pure sequence of
heap reads. -/
def recoverRecordValue (h : Heap) (src : Nat) (parentIdentifier : String) : Option JVal :=
  match lookupObj h src with
  | none => none
  | some sfs =>
      match jArgGet sfs OPENAPI_TO_GRAPHQL with
      | JVal.jref otgRef =>
          (match lookupObj h otgRef with
           | none => none
           | some otgFs =>
               match jArgGet otgFs "data" with
               | JVal.jref dataRef =>
                   (match lookupObj h dataRef with
                    | none => none
                    | some dataFs => getFieldJ dataFs parentIdentifier)
               | _ => none)
      | _ => none

/-- Lines 240 to 241, 329, 396 to 419, 472 to 473 and 564 on the
copied record at address rd: initialize usedParams when undefined,
Object.assign the (already resolved) arguments into the usedParams
object, and write usedPayload, usedRequestOptions, usedStatusCode and
responseHeaders. none models the JS crash on a non-object usedParams
value. -/
def mutateRecordCopy (h1 : Heap) (rd : Nat) (args : JFields) (payload : JVal)
    (statusCode : String) (optionsV responseHeadersV : JVal) : Option Heap :=
  let h2 :=
    match lookupObj h1 rd with
    | some rdFs =>
        if jArgGet rdFs "usedParams" = JVal.undef then
          writeField (alloc h1 []).1 rd "usedParams" (JVal.jref (alloc h1 []).2)
        else h1
    | none => h1
  match lookupObj h2 rd with
  | none => none
  | some rdFs2 =>
      match jArgGet rdFs2 "usedParams" with
      | JVal.jref u =>
          let h3 := objAssign h2 u args
          let h4 := writeField h3 rd "usedPayload" payload
          let h5 := writeField h4 rd "usedRequestOptions" optionsV
          let h6 := writeField h5 rd "usedStatusCode" (JVal.jstr statusCode)
          some (writeField h6 rd "responseHeaders" responseHeadersV)
      | _ => none

/-- The record phase of the resolver over the heap, in source order:
recover the record stored on the parent result, deep copy it, and
perform every record mutation of the current resolution on the copy.
Returns the final heap and the address of the copied record; none
models the JS crashes on malformed records. -/
def resolverRecordPhase (fuel : Nat) (h : Heap) (src : Nat) (parentIdentifier : String)
    (args : JFields) (payload : JVal) (statusCode : String)
    (optionsV responseHeadersV : JVal) : Option (Heap × Nat) :=
  match recoverRecordValue h src parentIdentifier with
  | none => none
  | some recVal =>
      match deepCopy fuel h recVal with
      | some (h1, JVal.jref rd) =>
          (match mutateRecordCopy h1 rd args payload statusCode optionsV responseHeadersV with
           | some h7 => some (h7, rd)
           | none => none)
      | _ => none

/-! Frame reasoning for the heap model: a resolution that deep-copies
the parent record can only write to freshly allocated cells, so every
pre-existing cell reads back unchanged. -/

def refBelowP (v : JVal) (n : Nat) : Prop := ∀ r, v = JVal.jref r → r < n

def refAtLeast (v : JVal) (n : Nat) : Prop := ∀ r, v = JVal.jref r → n ≤ r

/-- Every allocated address sits below the cursor. -/
def heapAddrsBelow (h : Heap) : Prop := ∀ a fs, lookupObj h a = some fs → a < h.next

/-- Every stored reference points below the cursor. -/
def heapRefsBelow (h : Heap) : Prop :=
  ∀ a fs, lookupObj h a = some fs → ∀ kv ∈ fs, refBelowP kv.2 h.next

/-- Cells at or above the watermark n reference only cells at or
above n. -/
def heapFreshRefs (n : Nat) (h : Heap) : Prop :=
  ∀ a fs, lookupObj h a = some fs → n ≤ a → ∀ kv ∈ fs, refAtLeast kv.2 n

/-- Agreement of two heaps on every cell below n. -/
def heapFrame (n : Nat) (h h' : Heap) : Prop :=
  ∀ a, a < n → lookupObj h' a = lookupObj h a

/-- The value of the last write for a key in an assignment source:
lookup semantics of Object.assign when duplicate keys occur. -/
def lastGet : List (String × V) → String → Option V
  | [], _ => none
  | (k0, v) :: rest, k =>
      match lastGet rest k with
      | some w => some w
      | none => if k0 = k then some v else none

/-- Distinct keys, the invariant of objects built by property writes. -/
def keysDistinct (fs : List (String × V)) : Prop := (fs.map Prod.fst).Nodup

/-! Concrete fixtures used by the witness and counterexample
theorems. -/

def c1Operation : Operation :=
  { method := "post", path := "/things", operationString := "post /things",
    statusCode := "200" }

def c1RequestOptions : PartialRequestOptions :=
  { headers := some [("accept", V.str "text/xml")] }

def c1Build : Except ResolverError (RequestOptionsModel × V) :=
  buildRequestOptions c1Operation {} none (some c1RequestOptions) none V.null
    "http://api" []

def c1Options : RequestOptionsModel :=
  match c1Build with
  | Except.ok pr => pr.1
  | Except.error _ => {}

def c1CleanRequestOptions : PartialRequestOptions :=
  { headers := some [("x-request-id", V.str "abc")] }

def c1CleanBuild : Except ResolverError (RequestOptionsModel × V) :=
  buildRequestOptions c1Operation {} none (some c1CleanRequestOptions) none V.null
    "http://api" []

def c1CleanPair : RequestOptionsModel × V :=
  match c1CleanBuild with
  | Except.ok pr => pr
  | Except.error _ => ({}, V.undef)

def c2ParamZeroDefault : ParameterObject :=
  { name := "offset", location := "query",
    schema := some (SchemaOrRef.inline { default := some (V.num 0) }) }

def c2ParamTruthyDefault : ParameterObject :=
  { name := "pageSize", location := "query",
    schema := some (SchemaOrRef.inline { default := some (V.num 5) }) }

def c2Operation : Operation :=
  { method := "get", path := "/list", operationString := "get /list",
    statusCode := "200", parameters := [c2ParamZeroDefault, c2ParamTruthyDefault] }

def c3Operation : Operation :=
  { method := "get", path := "/things", operationString := "get /things",
    statusCode := "200", responseContentType := some "application/json" }

def c3Data : PreprocessingData := { options := { addLimitArgument := true } }

def c3Response : HttpResponse :=
  { statusCode := 200, headers := [("content-type", "application/json")],
    body := "[\x7b\"id\":1\x7d,\x7b\"id\":2\x7d,\x7b\"id\":3\x7d,\x7b\"id\":4\x7d,\x7b\"id\":5\x7d]" }

def c3Body : V := (jsonParse c3Response.body).getD V.null

def c3Identifier : String := "things"

def c3Shaped : List V :=
  match passOnOpenAPIToGraphQL none c3Identifier
      (resolveDataToV { responseHeaders := c3Response.headers })
      (sanitizeObjectKeys (caseStyleOf c3Data.options) c3Body) with
  | Except.ok (V.arr l) => l
  | _ => []

def c3MixedResponse : HttpResponse :=
  { statusCode := 200, headers := [("content-type", "application/json")],
    body := "[\x7b\"id\":1\x7d,null]" }

def c4Operation : Operation :=
  { method := "get", path := "/things", operationString := "get /things",
    statusCode := "200", responseContentType := some "application/json" }

def c4DataExt : PreprocessingData := { options := { provideErrorExtensions := true } }

def c4Response : HttpResponse :=
  { statusCode := 404, headers := [("content-type", "application/json")],
    body := "\x7b\"message\":\"not found\"\x7d" }

def c6Response : HttpResponse :=
  { statusCode := 200, headers := [("content-type", "text/plain")], body := "hello" }

def c7Response : HttpResponse := { statusCode := 204, headers := [], body := "" }

def c7OperationNoType : Operation :=
  { method := "get", path := "/ping", operationString := "get /ping",
    statusCode := "204" }

def c8Heap : Heap :=
  { next := 4,
    objs :=
      [(0, [(OPENAPI_TO_GRAPHQL, JVal.jref 1)]),
       (1, [("data", JVal.jref 2)]),
       (2, [("getThing", JVal.jref 3)]),
       (3, [("usedPayload", JVal.jstr "prev"), ("usedStatusCode", JVal.jstr "200")])] }

def c8Args : JFields := [("limit", JVal.jnum 2)]

def c8Run : Option (Heap × Nat) :=
  resolverRecordPhase 10 c8Heap 0 "getThing" c8Args (JVal.jstr "payload") "200"
    JVal.undef JVal.undef

def c8HeapAfter : Heap := (c8Run.getD (c8Heap, 0)).1

def c10Root : List (String × V) :=
  [("id", V.str "42"), (OPENAPI_TO_GRAPHQL, V.obj [("data", V.obj [])])]

theorem lookupObj_mem (h : Heap) (a : Nat) (fs : JFields)
    (hl : lookupObj h a = some fs) : (a, fs) ∈ h.objs := by
  unfold lookupObj at hl
  cases hf : h.objs.find? (fun e => e.1 = a) with
  | none => rw [hf] at hl; simp at hl
  | some e =>
      rw [hf] at hl
      simp only [Option.map] at hl
      have hmem := List.mem_of_find?_eq_some hf
      have hp := List.find?_some hf
      simp only [decide_eq_true_eq] at hp
      cases e with
      | mk e1 e2 =>
          simp only at hp hl
          subst hp
          simp only [Option.some.injEq] at hl
          subst hl
          exact hmem

theorem heapWFB_addrsBelow (h : Heap) (hwf : heapWFB h = true) : heapAddrsBelow h := by
  intro a fs hl
  have hmem := lookupObj_mem h a fs hl
  have := List.all_eq_true.mp hwf _ hmem
  simp only [Bool.and_eq_true, decide_eq_true_eq] at this
  exact this.1

theorem heapWFB_refsBelow (h : Heap) (hwf : heapWFB h = true) : heapRefsBelow h := by
  intro a fs hl kv hkv r hr
  have hmem := lookupObj_mem h a fs hl
  have hall := List.all_eq_true.mp hwf _ hmem
  simp only [Bool.and_eq_true, decide_eq_true_eq] at hall
  have hkvb := List.all_eq_true.mp hall.2 _ hkv
  rw [hr] at hkvb
  simpa [refBelowB] using hkvb

theorem lookupObj_alloc (h : Heap) (fs : JFields) (a : Nat) :
    lookupObj (alloc h fs).1 a = if a = h.next then some fs else lookupObj h a := by
  by_cases hx : a = h.next
  · subst hx; simp [lookupObj, alloc, List.find?]
  · simp only [lookupObj, alloc, List.find?]
    have : (decide (h.next = a)) = false := by
      simp only [decide_eq_false_iff_not]
      exact fun hc => hx hc.symm
    rw [this]
    simp [hx]

theorem alloc_next (h : Heap) (fs : JFields) : (alloc h fs).1.next = h.next + 1 := rfl

theorem find?_setEntry_ne (a b : Nat) (fs : JFields) (hne : b ≠ a) :
    ∀ objs : List (Nat × JFields),
      (setEntry objs a fs).find? (fun e => e.1 = b) = objs.find? (fun e => e.1 = b) := by
  intro objs
  induction objs with
  | nil => rfl
  | cons e rest ih =>
      cases e with
      | mk c g =>
          simp only [setEntry]
          by_cases hc : c = a
          · rw [if_pos hc]
            simp only [List.find?]
            have h1 : (decide (a = b)) = false := by
              simp only [decide_eq_false_iff_not]; exact fun hc2 => hne hc2.symm
            have h2 : (decide (c = b)) = false := by rw [hc]; exact h1
            rw [h1, h2]
          · rw [if_neg hc]
            simp only [List.find?]
            cases hcb : decide (c = b) with
            | true => rfl
            | false => exact ih

theorem find?_setEntry_self (a : Nat) (fs : JFields) :
    ∀ (objs : List (Nat × JFields)) (e : Nat × JFields),
      objs.find? (fun e => e.1 = a) = some e →
      (setEntry objs a fs).find? (fun e => e.1 = a) = some (a, fs) := by
  intro objs
  induction objs with
  | nil => intro e h; simp [List.find?] at h
  | cons x rest ih =>
      intro e h
      cases x with
      | mk c g =>
          simp only [setEntry]
          by_cases hc : c = a
          · rw [if_pos hc]; simp [List.find?]
          · rw [if_neg hc]
            simp only [List.find?] at h ⊢
            have hcb : (decide (c = a)) = false := by simp [hc]
            rw [hcb] at h ⊢
            exact ih e h

theorem lookupObj_writeField_other (h : Heap) (a : Nat) (k : String) (v : JVal)
    (b : Nat) (hne : b ≠ a) : lookupObj (writeField h a k v) b = lookupObj h b := by
  unfold writeField
  cases hl : lookupObj h a with
  | none => rfl
  | some fs =>
      simp only [lookupObj]
      rw [find?_setEntry_ne a b (setFieldJ fs k v) hne]

theorem lookupObj_writeField_self (h : Heap) (a : Nat) (k : String) (v : JVal)
    (fs : JFields) (hl : lookupObj h a = some fs) :
    lookupObj (writeField h a k v) a = some (setFieldJ fs k v) := by
  unfold writeField
  rw [hl]
  simp only [lookupObj]
  unfold lookupObj at hl
  cases hf : h.objs.find? (fun e => e.1 = a) with
  | none => rw [hf] at hl; simp at hl
  | some e =>
      rw [find?_setEntry_self a (setFieldJ fs k v) h.objs e hf]
      rfl

theorem writeField_next (h : Heap) (a : Nat) (k : String) (v : JVal) :
    (writeField h a k v).next = h.next := by
  unfold writeField
  cases lookupObj h a <;> rfl

theorem objAssign_lookup_other (entries : JFields) :
    ∀ (h : Heap) (a b : Nat), b ≠ a →
      lookupObj (objAssign h a entries) b = lookupObj h b := by
  induction entries with
  | nil => intro h a b _; rfl
  | cons kv rest ih =>
      intro h a b hne
      show lookupObj (objAssign (writeField h a kv.1 kv.2) a rest) b = _
      rw [ih (writeField h a kv.1 kv.2) a b hne]
      exact lookupObj_writeField_other h a kv.1 kv.2 b hne

theorem setFieldJ_mem (k : String) (v : JVal) :
    ∀ (fs : JFields) (kv : String × JVal), kv ∈ setFieldJ fs k v → kv ∈ fs ∨ kv = (k, v) := by
  intro fs
  induction fs with
  | nil => intro kv h; simp [setFieldJ] at h; right; exact h
  | cons x rest ih =>
      intro kv h
      cases x with
      | mk k0 w0 =>
          simp only [setFieldJ] at h
          by_cases hk : k0 = k
          · rw [if_pos hk] at h
            rcases List.mem_cons.mp h with h1 | h2
            · right; rw [h1, hk]
            · left; exact List.mem_cons_of_mem _ h2
          · rw [if_neg hk] at h
            rcases List.mem_cons.mp h with h1 | h2
            · left; rw [h1]; exact List.mem_cons_self _ _
            · rcases ih kv h2 with h3 | h4
              · left; exact List.mem_cons_of_mem _ h3
              · right; exact h4

theorem allocFieldsWith_spec (n : Nat) (g : Heap → V → Option (Heap × JVal))
    (hg : ∀ h v h' w, g h v = some (h', w) → n ≤ h.next → heapAddrsBelow h →
      heapFreshRefs n h →
      h.next ≤ h'.next ∧ heapFrame h.next h h' ∧ heapAddrsBelow h' ∧
        heapFreshRefs n h' ∧ refAtLeast w n) :
    ∀ (l : List (String × V)) (h h' : Heap) (gs : JFields),
      allocFieldsWith g h l = some (h', gs) → n ≤ h.next → heapAddrsBelow h →
      heapFreshRefs n h →
      h.next ≤ h'.next ∧ heapFrame h.next h h' ∧ heapAddrsBelow h' ∧
        heapFreshRefs n h' ∧ ∀ kv ∈ gs, refAtLeast kv.2 n := by
  intro l
  induction l with
  | nil =>
      intro h h' gs hrun hn ha hf
      simp only [allocFieldsWith, Option.some.injEq, Prod.mk.injEq] at hrun
      obtain ⟨rfl, rfl⟩ := hrun
      exact ⟨le_refl _, fun a _ => rfl, ha, hf, by simp⟩
  | cons kv rest ih =>
      intro h h' gs hrun hn ha hf
      cases kv with
      | mk k v =>
          simp only [allocFieldsWith] at hrun
          cases hgv : g h v with
          | none => rw [hgv] at hrun; simp at hrun
          | some p =>
              cases p with
              | mk h1 w =>
                  rw [hgv] at hrun
                  simp only at hrun
                  cases hrest : allocFieldsWith g h1 rest with
                  | none => rw [hrest] at hrun; simp at hrun
                  | some q =>
                      cases q with
                      | mk h2 ws =>
                          rw [hrest] at hrun
                          simp only [Option.some.injEq, Prod.mk.injEq] at hrun
                          obtain ⟨rfl, rfl⟩ := hrun
                          obtain ⟨hle1, hfr1, ha1, hff1, hw⟩ := hg h v h1 w hgv hn ha hf
                          obtain ⟨hle2, hfr2, ha2, hff2, hws⟩ :=
                            ih h1 h2 ws hrest (le_trans hn hle1) ha1 hff1
                          refine ⟨le_trans hle1 hle2, ?_, ha2, hff2, ?_⟩
                          · intro a hlt
                            rw [hfr2 a (lt_of_lt_of_le hlt hle1), hfr1 a hlt]
                          · intro kv2 hkv2
                            rcases List.mem_cons.mp hkv2 with h1' | h2'
                            · rw [h1']; exact hw
                            · exact hws kv2 h2'

theorem allocTreeF_spec (n : Nat) :
    ∀ (f : Nat) (h : Heap) (v : V) (h' : Heap) (w : JVal),
      allocTreeF f h v = some (h', w) → n ≤ h.next → heapAddrsBelow h →
      heapFreshRefs n h →
      h.next ≤ h'.next ∧ heapFrame h.next h h' ∧ heapAddrsBelow h' ∧
        heapFreshRefs n h' ∧ refAtLeast w n := by
  intro f
  induction f with
  | zero => intro h v h' w hrun _ _ _; simp [allocTreeF] at hrun
  | succ f ih =>
      intro h v h' w hrun hn ha hf
      have hallocCase :
          ∀ (fs : List (String × V)),
            (match allocFieldsWith (allocTreeF f) h fs with
             | some (h1, gs) => some ((alloc h1 gs).1, JVal.jref (alloc h1 gs).2)
             | none => none) = some (h', w) →
            h.next ≤ h'.next ∧ heapFrame h.next h h' ∧ heapAddrsBelow h' ∧
              heapFreshRefs n h' ∧ refAtLeast w n := by
        intro fs hrun2
        cases hfw : allocFieldsWith (allocTreeF f) h fs with
        | none => rw [hfw] at hrun2; simp at hrun2
        | some p =>
            cases p with
            | mk h1 gs =>
                rw [hfw] at hrun2
                simp only [Option.some.injEq, Prod.mk.injEq] at hrun2
                obtain ⟨rfl, rfl⟩ := hrun2
                obtain ⟨hle1, hfr1, ha1, hff1, hgs⟩ :=
                  allocFieldsWith_spec n (allocTreeF f) ih fs h h1 gs hfw hn ha hf
                refine ⟨?_, ?_, ?_, ?_, ?_⟩
                · rw [alloc_next]; omega
                · intro a hlt
                  rw [lookupObj_alloc]
                  rw [if_neg (by omega : ¬ a = h1.next)]
                  exact hfr1 a hlt
                · intro a fs2 hl2
                  rw [lookupObj_alloc] at hl2
                  rw [alloc_next]
                  by_cases hax : a = h1.next
                  · omega
                  · rw [if_neg hax] at hl2
                    have := ha1 a fs2 hl2
                    omega
                · intro a fs2 hl2 hna
                  rw [lookupObj_alloc] at hl2
                  by_cases hax : a = h1.next
                  · rw [if_pos hax] at hl2
                    cases hl2
                    exact hgs
                  · rw [if_neg hax] at hl2
                    exact hff1 a fs2 hl2 hna
                · intro r hr
                  cases hr
                  have halloc : (alloc h1 gs).2 = h1.next := rfl
                  omega
      cases v with
      | undef =>
          simp only [allocTreeF, Option.some.injEq, Prod.mk.injEq] at hrun
          obtain ⟨rfl, rfl⟩ := hrun
          exact ⟨le_refl _, fun a _ => rfl, ha, hf, fun r hr => by cases hr⟩
      | null =>
          simp only [allocTreeF, Option.some.injEq, Prod.mk.injEq] at hrun
          obtain ⟨rfl, rfl⟩ := hrun
          exact ⟨le_refl _, fun a _ => rfl, ha, hf, fun r hr => by cases hr⟩
      | bool b =>
          simp only [allocTreeF, Option.some.injEq, Prod.mk.injEq] at hrun
          obtain ⟨rfl, rfl⟩ := hrun
          exact ⟨le_refl _, fun a _ => rfl, ha, hf, fun r hr => by cases hr⟩
      | num m =>
          simp only [allocTreeF, Option.some.injEq, Prod.mk.injEq] at hrun
          obtain ⟨rfl, rfl⟩ := hrun
          exact ⟨le_refl _, fun a _ => rfl, ha, hf, fun r hr => by cases hr⟩
      | str s =>
          simp only [allocTreeF, Option.some.injEq, Prod.mk.injEq] at hrun
          obtain ⟨rfl, rfl⟩ := hrun
          exact ⟨le_refl _, fun a _ => rfl, ha, hf, fun r hr => by cases hr⟩
      | arr xs =>
          simp only [allocTreeF] at hrun
          exact hallocCase _ hrun
      | obj fs =>
          simp only [allocTreeF] at hrun
          exact hallocCase _ hrun

theorem deepCopy_spec (fuel : Nat) (h : Heap) (v : JVal) (h' : Heap) (w : JVal)
    (hrun : deepCopy fuel h v = some (h', w)) (ha : heapAddrsBelow h) :
    h.next ≤ h'.next ∧ heapFrame h.next h h' ∧ heapAddrsBelow h' ∧
      heapFreshRefs h.next h' ∧ refAtLeast w h.next := by
  unfold deepCopy at hrun
  cases hr : readBackV fuel h v with
  | none => rw [hr] at hrun; simp at hrun
  | some t =>
      rw [hr] at hrun
      have hf0 : heapFreshRefs h.next h := by
        intro a fs hl hna
        have := ha a fs hl
        omega
      exact allocTreeF_spec h.next fuel h t h' w hrun (le_refl _) ha hf0

theorem getFieldJ_mem (fs : JFields) (k : String) (v : JVal)
    (h : getFieldJ fs k = some v) : (k, v) ∈ fs := by
  unfold getFieldJ at h
  cases hf : fs.find? (fun e => e.1 = k) with
  | none => rw [hf] at h; simp at h
  | some e =>
      rw [hf] at h
      have hmem := List.mem_of_find?_eq_some hf
      have hp := List.find?_some hf
      simp only [decide_eq_true_eq] at hp
      cases e with
      | mk e1 e2 =>
          simp only [Option.map] at h
          simp only at hp
          subst hp
          simp only [Option.some.injEq] at h
          subst h
          exact hmem

theorem heapFreshRefs_writeField (n : Nat) (h : Heap) (a : Nat) (k : String) (v : JVal)
    (hf : heapFreshRefs n h) (hv : refAtLeast v n) :
    heapFreshRefs n (writeField h a k v) := by
  intro b fs hl hnb
  by_cases hba : b = a
  · subst hba
    cases hla : lookupObj h b with
    | none => unfold writeField at hl; rw [hla] at hl; rw [hla] at hl; simp at hl
    | some fsa =>
        rw [lookupObj_writeField_self h b k v fsa hla] at hl
        cases hl
        intro kv hkv
        rcases setFieldJ_mem k v fsa kv hkv with h1 | h2
        · exact hf b fsa hla hnb kv h1
        · rw [h2]; exact hv
  · rw [lookupObj_writeField_other h a k v b hba] at hl
    exact hf b fs hl hnb

theorem heapFreshRefs_alloc (n : Nat) (h : Heap) (fs : JFields)
    (hf : heapFreshRefs n h) (hfs : ∀ kv ∈ fs, refAtLeast kv.2 n) :
    heapFreshRefs n (alloc h fs).1 := by
  intro b fs2 hl hnb
  rw [lookupObj_alloc] at hl
  by_cases hbx : b = h.next
  · rw [if_pos hbx] at hl; cases hl; exact hfs
  · rw [if_neg hbx] at hl; exact hf b fs2 hl hnb

theorem readFieldsWith_congr (g1 g2 : JVal → Option V)
    (fs : JFields) (hgs : ∀ kv ∈ fs, g1 kv.2 = g2 kv.2) :
    readFieldsWith g1 fs = readFieldsWith g2 fs := by
  induction fs with
  | nil => rfl
  | cons kv rest ih =>
      have hkv := hgs kv (List.mem_cons_self _ _)
      have hrest : ∀ kv2 ∈ rest, g1 kv2.2 = g2 kv2.2 :=
        fun kv2 hm => hgs kv2 (List.mem_cons_of_mem _ hm)
      cases kv with
      | mk k v =>
          cases v with
          | undef => simp only [readFieldsWith]; exact ih hrest
          | jnull => simp only [readFieldsWith]; rw [hkv, ih hrest]
          | jbool b => simp only [readFieldsWith]; rw [hkv, ih hrest]
          | jnum m => simp only [readFieldsWith]; rw [hkv, ih hrest]
          | jstr s => simp only [readFieldsWith]; rw [hkv, ih hrest]
          | jref r => simp only [readFieldsWith]; rw [hkv, ih hrest]

theorem readBackV_agree (n : Nat) (h h' : Heap)
    (hrefs : ∀ a fs, lookupObj h a = some fs → ∀ kv ∈ fs, refBelowP kv.2 n)
    (hag : heapFrame n h h') :
    ∀ (f : Nat) (v : JVal), refBelowP v n → readBackV f h' v = readBackV f h v := by
  intro f
  induction f with
  | zero => intro v _; rfl
  | succ f ih =>
      intro v hv
      cases v with
      | undef => rfl
      | jnull => rfl
      | jbool b => rfl
      | jnum m => rfl
      | jstr s => rfl
      | jref r =>
          have hr : r < n := hv r rfl
          simp only [readBackV]
          rw [hag r hr]
          cases hl : lookupObj h r with
          | none => rfl
          | some fs =>
              have hcongr := readFieldsWith_congr (readBackV f h') (readBackV f h) fs
                (fun kv hkv => ih kv.2 (hrefs r fs hl kv hkv))
              dsimp only
              rw [hcongr]

theorem jArgGet_jref_mem (fs : JFields) (k : String) (u : Nat)
    (h : jArgGet fs k = JVal.jref u) : (k, JVal.jref u) ∈ fs := by
  unfold jArgGet at h
  cases hg : getFieldJ fs k with
  | none => rw [hg] at h; simp [Option.getD] at h
  | some w =>
      rw [hg] at h
      simp only [Option.getD] at h
      subst h
      exact getFieldJ_mem fs k _ hg

theorem mutateRecordCopy_tail_frame (n : Nat) (h1 h2 : Heap) (rd : Nat)
    (args : JFields) (payload : JVal) (status : String) (optionsV rhdrsV : JVal)
    (h' : Heap)
    (hrun :
      (match lookupObj h2 rd with
       | none => none
       | some rdFs2 =>
           match jArgGet rdFs2 "usedParams" with
           | JVal.jref u =>
               some (writeField
                 (writeField
                   (writeField (writeField (objAssign h2 u args) rd "usedPayload" payload)
                     rd "usedRequestOptions" optionsV)
                   rd "usedStatusCode" (JVal.jstr status))
                 rd "responseHeaders" rhdrsV)
           | _ => none) = some h')
    (hrd : n ≤ rd) (hfr : heapFrame n h1 h2) (hff : heapFreshRefs n h2) :
    heapFrame n h1 h' := by
  cases hl2 : lookupObj h2 rd with
  | none => rw [hl2] at hrun; simp at hrun
  | some rdFs2 =>
      rw [hl2] at hrun
      dsimp only at hrun
      cases hup : jArgGet rdFs2 "usedParams" with
      | undef => rw [hup] at hrun; simp at hrun
      | jnull => rw [hup] at hrun; simp at hrun
      | jbool b => rw [hup] at hrun; simp at hrun
      | jnum m => rw [hup] at hrun; simp at hrun
      | jstr s => rw [hup] at hrun; simp at hrun
      | jref u =>
          rw [hup] at hrun
          simp only [Option.some.injEq] at hrun
          subst hrun
          have hu : n ≤ u := by
            have hmem := jArgGet_jref_mem rdFs2 "usedParams" u hup
            have := hff rd rdFs2 hl2 hrd _ hmem u rfl
            exact this
          intro a hlt
          have hard : a ≠ rd := by omega
          have hau : a ≠ u := by omega
          rw [lookupObj_writeField_other _ rd _ _ a hard]
          rw [lookupObj_writeField_other _ rd _ _ a hard]
          rw [lookupObj_writeField_other _ rd _ _ a hard]
          rw [lookupObj_writeField_other _ rd _ _ a hard]
          rw [objAssign_lookup_other args h2 u a hau]
          exact hfr a hlt

theorem mutateRecordCopy_frame (n : Nat) (h1 : Heap) (rd : Nat) (args : JFields)
    (payload : JVal) (status : String) (optionsV rhdrsV : JVal) (h' : Heap)
    (hrun : mutateRecordCopy h1 rd args payload status optionsV rhdrsV = some h')
    (hrd : n ≤ rd) (hn1 : n ≤ h1.next) (hf : heapFreshRefs n h1) :
    heapFrame n h1 h' := by
  unfold mutateRecordCopy at hrun
  simp only at hrun
  cases hla : lookupObj h1 rd with
  | none =>
      rw [hla] at hrun
      dsimp only at hrun
      exact mutateRecordCopy_tail_frame n h1 h1 rd args payload status optionsV rhdrsV
        h' hrun hrd (fun a _ => rfl) hf
  | some rdFs =>
      rw [hla] at hrun
      dsimp only at hrun
      by_cases hup : jArgGet rdFs "usedParams" = JVal.undef
      · rw [if_pos hup] at hrun
        have hfr2 : heapFrame n h1
            (writeField (alloc h1 []).1 rd "usedParams" (JVal.jref (alloc h1 []).2)) := by
          intro a hlt
          have hard : a ≠ rd := by omega
          rw [lookupObj_writeField_other _ rd _ _ a hard]
          rw [lookupObj_alloc]
          rw [if_neg (by omega : ¬ a = h1.next)]
        have hff2 : heapFreshRefs n
            (writeField (alloc h1 []).1 rd "usedParams" (JVal.jref (alloc h1 []).2)) := by
          have h1' := heapFreshRefs_alloc n h1 [] hf (by simp)
          exact heapFreshRefs_writeField n (alloc h1 []).1 rd "usedParams"
            (JVal.jref (alloc h1 []).2) h1'
            (fun r hr => by cases hr; exact hn1)
        exact mutateRecordCopy_tail_frame n h1 _ rd args payload status optionsV rhdrsV
          h' hrun hrd hfr2 hff2
      · rw [if_neg hup] at hrun
        exact mutateRecordCopy_tail_frame n h1 h1 rd args payload status optionsV rhdrsV
          h' hrun hrd (fun a _ => rfl) hf

theorem resolverRecordPhase_frame (fuel : Nat) (h : Heap) (src : Nat)
    (parentIdentifier : String) (args : JFields) (payload : JVal) (status : String)
    (optionsV rhdrsV : JVal) (h' : Heap) (rd : Nat)
    (hwf : heapWFB h = true)
    (hrun : resolverRecordPhase fuel h src parentIdentifier args payload status
      optionsV rhdrsV = some (h', rd)) :
    heapFrame h.next h h' := by
  unfold resolverRecordPhase at hrun
  cases hrec : recoverRecordValue h src parentIdentifier with
  | none => rw [hrec] at hrun; simp at hrun
  | some recVal =>
      rw [hrec] at hrun
      dsimp only at hrun
      cases hdc : deepCopy fuel h recVal with
      | none => rw [hdc] at hrun; simp at hrun
      | some p =>
          rw [hdc] at hrun
          cases p with
          | mk h1 w =>
              cases w with
              | undef => simp at hrun
              | jnull => simp at hrun
              | jbool b => simp at hrun
              | jnum m => simp at hrun
              | jstr s => simp at hrun
              | jref rd' =>
                  dsimp only at hrun
                  cases hmut : mutateRecordCopy h1 rd' args payload status optionsV rhdrsV with
                  | none => rw [hmut] at hrun; simp at hrun
                  | some h7 =>
                      rw [hmut] at hrun
                      simp only [Option.some.injEq, Prod.mk.injEq] at hrun
                      obtain ⟨heq1, heq2⟩ := hrun
                      rw [← heq1]
                      have ha := heapWFB_addrsBelow h hwf
                      obtain ⟨hle1, hfr1, ha1, hff1, hwr⟩ :=
                        deepCopy_spec fuel h recVal h1 (JVal.jref rd') hdc ha
                      have hrd : h.next ≤ rd' := hwr rd' rfl
                      have hfr2 := mutateRecordCopy_frame h.next h1 rd' args payload
                        status optionsV rhdrsV h7 hmut hrd hle1 hff1
                      intro a hlt
                      rw [hfr2 a hlt, hfr1 a hlt]

/-- Claim C8: the record stored on the parent result (and every other
pre-existing cell) reads back unchanged after the record phase of a
resolution. The phase recovers the record under the parent identifier,
deep copies it, and performs the default-filling-era record mutations
(usedParams initialization and merge, usedPayload, usedRequestOptions,
usedStatusCode, responseHeaders) on the copy only, so sibling branches
sharing the parent observe an unchanged record. -/
theorem resolverRecordPhase_preserves_parent (fuel : Nat) (h : Heap) (src : Nat)
    (parentIdentifier : String) (args : JFields) (payload : JVal) (status : String)
    (optionsV rhdrsV : JVal) (h' : Heap) (rd : Nat)
    (hwf : heapWFB h = true)
    (hrun : resolverRecordPhase fuel h src parentIdentifier args payload status
      optionsV rhdrsV = some (h', rd))
    (f a : Nat) (ha : a < h.next) :
    readBackV f h' (JVal.jref a) = readBackV f h (JVal.jref a) := by
  have hframe := resolverRecordPhase_frame fuel h src parentIdentifier args payload
    status optionsV rhdrsV h' rd hwf hrun
  have hrefs : ∀ b fs, lookupObj h b = some fs → ∀ kv ∈ fs, refBelowP kv.2 h.next :=
    heapWFB_refsBelow h hwf
  exact readBackV_agree h.next h h' hrefs hframe f (JVal.jref a)
    (fun r hr => by cases hr; exact ha)

/-! Association-list lemmas for the JS-object operations. -/

theorem getField_setField_self (fs : List (String × V)) (k : String) (v : V) :
    getField (setField fs k v) k = some v := by
  induction fs with
  | nil => simp [setField, getField]
  | cons kv rest ih =>
      cases kv with
      | mk k0 w =>
          simp only [setField]
          by_cases hk : k0 = k
          · rw [if_pos hk]
            simp [getField, hk]
          · rw [if_neg hk]
            simp only [getField]
            rw [if_neg hk]
            exact ih

theorem getField_setField_other (fs : List (String × V)) (k k2 : String) (v : V)
    (hne : k2 ≠ k) : getField (setField fs k v) k2 = getField fs k2 := by
  induction fs with
  | nil =>
      simp only [setField, getField]
      rw [if_neg (fun hc : k = k2 => hne hc.symm)]
  | cons kv rest ih =>
      cases kv with
      | mk k0 w =>
          simp only [setField]
          by_cases hk : k0 = k
          · rw [if_pos hk]
            simp only [getField]
            rw [if_neg (fun hc : k0 = k2 => hne (hc ▸ hk)),
              if_neg (fun hc : k0 = k2 => hne (hc ▸ hk))]
          · rw [if_neg hk]
            simp only [getField]
            by_cases hk2 : k0 = k2
            · rw [if_pos hk2, if_pos hk2]
            · rw [if_neg hk2, if_neg hk2]
              exact ih

theorem setField_mem (k : String) (v : V) :
    ∀ (fs : List (String × V)) (kv : String × V),
      kv ∈ setField fs k v → kv ∈ fs ∨ kv = (k, v) := by
  intro fs
  induction fs with
  | nil => intro kv h; simp [setField] at h; right; exact h
  | cons x rest ih =>
      intro kv h
      cases x with
      | mk k0 w0 =>
          simp only [setField] at h
          by_cases hk : k0 = k
          · rw [if_pos hk] at h
            rcases List.mem_cons.mp h with h1 | h2
            · right; rw [h1, hk]
            · left; exact List.mem_cons_of_mem _ h2
          · rw [if_neg hk] at h
            rcases List.mem_cons.mp h with h1 | h2
            · left; rw [h1]; exact List.mem_cons_self _ _
            · rcases ih kv h2 with h3 | h4
              · left; exact List.mem_cons_of_mem _ h3
              · right; exact h4

theorem lastGet_none_of_all_ne (fs : List (String × V)) (k : String)
    (h : ∀ kv ∈ fs, kv.1 ≠ k) : lastGet fs k = none := by
  induction fs with
  | nil => rfl
  | cons kv rest ih =>
      cases kv with
      | mk k0 v =>
          simp only [lastGet]
          rw [ih (fun kv2 hm => h kv2 (List.mem_cons_of_mem _ hm))]
          rw [if_neg (h (k0, v) (List.mem_cons_self _ _))]

theorem getField_none_of_all_ne (fs : List (String × V)) (k : String)
    (h : ∀ kv ∈ fs, kv.1 ≠ k) : getField fs k = none := by
  induction fs with
  | nil => rfl
  | cons kv rest ih =>
      cases kv with
      | mk k0 v =>
          simp only [getField]
          rw [if_neg (h (k0, v) (List.mem_cons_self _ _))]
          exact ih (fun kv2 hm => h kv2 (List.mem_cons_of_mem _ hm))

theorem lastGet_eq_getField (fs : List (String × V)) (k : String)
    (hd : keysDistinct fs) : lastGet fs k = getField fs k := by
  induction fs with
  | nil => rfl
  | cons kv rest ih =>
      cases kv with
      | mk k0 v =>
          have hd2 : keysDistinct rest := by
            unfold keysDistinct at hd ⊢
            simp only [List.map_cons] at hd
            exact hd.of_cons
          have hnotin : k0 ∉ rest.map Prod.fst := by
            unfold keysDistinct at hd
            simp only [List.map_cons] at hd
            exact (List.nodup_cons.mp hd).1
          simp only [lastGet, getField]
          by_cases hk : k0 = k
          · subst hk
            have hnone : lastGet rest k0 = none := by
              apply lastGet_none_of_all_ne
              intro kv2 hm heq
              exact hnotin (heq ▸ List.mem_map_of_mem Prod.fst hm)
            rw [hnone, if_pos rfl, if_pos rfl]
          · rw [ih hd2]
            cases hg : getField rest k with
            | none => dsimp only
            | some w =>
                dsimp only
                rw [if_neg hk]

theorem getField_assignFields (src : List (String × V)) :
    ∀ (t : List (String × V)) (k : String),
      getField (assignFields t src) k =
        match lastGet src k with
        | some v => some v
        | none => getField t k := by
  induction src with
  | nil => intro t k; rfl
  | cons kv rest ih =>
      intro t k
      cases kv with
      | mk k0 v0 =>
          show getField (assignFields (setField t k0 v0) rest) k = _
          rw [ih (setField t k0 v0) k]
          simp only [lastGet]
          cases hl : lastGet rest k with
          | some w => rfl
          | none =>
              by_cases hk : k0 = k
              · rw [if_pos hk, hk, getField_setField_self]
              · rw [if_neg hk, getField_setField_other t k0 k v0 (fun hc => hk hc.symm)]

theorem getField_assignFields_of_lastGet_none (t src : List (String × V)) (k : String)
    (h : lastGet src k = none) : getField (assignFields t src) k = getField t k := by
  rw [getField_assignFields src t k, h]

theorem keysDistinct_setField (fs : List (String × V)) (k : String) (v : V)
    (hd : keysDistinct fs) : keysDistinct (setField fs k v) := by
  induction fs with
  | nil => simp [setField, keysDistinct]
  | cons kv rest ih =>
      cases kv with
      | mk k0 w =>
          have hd2 : keysDistinct rest := by
            unfold keysDistinct at hd ⊢
            simp only [List.map_cons] at hd
            exact hd.of_cons
          have hnotin : k0 ∉ rest.map Prod.fst := by
            unfold keysDistinct at hd
            simp only [List.map_cons] at hd
            exact (List.nodup_cons.mp hd).1
          simp only [setField]
          by_cases hk : k0 = k
          · rw [if_pos hk]
            unfold keysDistinct
            simp only [List.map_cons]
            exact List.nodup_cons.mpr ⟨hnotin, hd2⟩
          · rw [if_neg hk]
            unfold keysDistinct
            simp only [List.map_cons]
            refine List.nodup_cons.mpr ⟨?_, ih hd2⟩
            intro hmem
            rcases List.mem_map.mp hmem with ⟨kv2, hkv2, hfst⟩
            rcases setField_mem k v rest kv2 hkv2 with h1 | h2
            · exact hnotin (hfst ▸ List.mem_map_of_mem Prod.fst h1)
            · rw [h2] at hfst
              exact hk hfst.symm

/-! Claim theorems. -/

/-- Claim C2, evaluated at the failing input: default filling skips a
declared falsy default. With parameter offset declaring schema default
0 and parameter pageSize declaring schema default 5, and no caller
arguments, the resolver leaves offset absent, because the source tests
schema.default for truthiness, while the truthy default 5 is injected
for pageSize. The spec says every declared default is injected. -/
theorem c2_falsy_default_not_injected :
    getField (handleDefaultValues c2Operation {} []) "offset" = none ∧
    getField (handleDefaultValues c2Operation {} []) "pageSize" = some (V.num 5) := by
  constructor
  · rfl
  · rfl

/-- Claim C4: a dispatch status outside 200 to 299 fails the resolver
with the invocation error; when provideErrorExtensions is set the
error carries the operation method and path, the received status code,
the response headers and the JSON-parsed-or-raw response body, and
otherwise it carries no extension payload (the generic-message
case). -/
theorem c4_error_shaping (operation : Operation) (data : PreprocessingData)
    (sourceOtg : Option V) (identifier : String) (args : Args) (rd : ResolveData)
    (response : HttpResponse)
    (hfail : response.statusCode < 200 ∨ 299 < response.statusCode) :
    handleResponse operation data sourceOtg identifier args rd response =
      Except.error (ResolverError.invocationError
        (if data.options.provideErrorExtensions then
          some { method := operation.method, path := operation.path,
                 statusCode := response.statusCode,
                 responseHeaders := response.headers,
                 responseBody := (jsonParse response.body).getD (V.str response.body) }
         else none)) := by
  unfold handleResponse
  split
  · cases hb : data.options.provideErrorExtensions with
    | true => simp [hb]
    | false => simp [hb]
  · rename_i hc
    simp only [Bool.or_eq_true, decide_eq_true_eq, not_or] at hc
    rcases hfail with h | h <;> omega

theorem c4_error_shaping_witness :
    handleResponse c4Operation c4DataExt none "things" [] {} c4Response =
      Except.error (ResolverError.invocationError (some
        { method := "get", path := "/things", statusCode := 404,
          responseHeaders := [("content-type", "application/json")],
          responseBody := V.obj [("message", V.str "not found")] })) ∧
    handleResponse c4Operation {} none "things" [] {} c4Response =
      Except.error (ResolverError.invocationError none) := by
  constructor
  · have h := c4_error_shaping c4Operation c4DataExt none "things" [] {} c4Response
      (Or.inr (by decide))
    rw [h]
    rfl
  · have h := c4_error_shaping c4Operation {} none "things" [] {} c4Response
      (Or.inr (by decide))
    rw [h]
    rfl

/-- Claim C6: a successful response whose received content type is
neither a substring of the declared response content type nor a
superstring of it fails with the content-type-mismatch protocol error
instead of any attempt to parse or return the body. -/
theorem c6_content_type_mismatch (operation : Operation) (data : PreprocessingData)
    (sourceOtg : Option V) (identifier : String) (args : Args) (rd : ResolveData)
    (response : HttpResponse) (declared ct : String)
    (hs1 : 200 ≤ response.statusCode) (hs2 : response.statusCode ≤ 299)
    (hct : (response.headers.find? (fun kv => kv.1 = "content-type")).map
      (fun kv => kv.2) = some ct)
    (hdecl : operation.responseContentType = some declared)
    (hm1 : strIncludes ct declared = false) (hm2 : strIncludes declared ct = false) :
    handleResponse operation data sourceOtg identifier args rd response =
      Except.error (ResolverError.contentTypeMismatch declared ct) := by
  unfold handleResponse
  split
  · rename_i hc
    simp only [Bool.or_eq_true, decide_eq_true_eq] at hc
    rcases hc with h | h <;> omega
  · rw [hct]
    dsimp only
    rw [hdecl]
    dsimp only
    rw [hm1, hm2]
    rfl

theorem c6_content_type_mismatch_witness :
    handleResponse c3Operation {} none "things" [] {} c6Response =
      Except.error (ResolverError.contentTypeMismatch "application/json" "text/plain") := by
  exact c6_content_type_mismatch c3Operation {} none "things" [] {} c6Response
    "application/json" "text/plain" (by decide) (by decide) rfl rfl rfl rfl

/-- Claim C7: a successful response lacking a content-type header is an
empty success (null) exactly when the Operation declares no response
content type, and the missing-content-type protocol error when it
declares one. -/
theorem c7_missing_content_type (operation : Operation) (data : PreprocessingData)
    (sourceOtg : Option V) (identifier : String) (args : Args) (rd : ResolveData)
    (response : HttpResponse)
    (hs1 : 200 ≤ response.statusCode) (hs2 : response.statusCode ≤ 299)
    (hct : (response.headers.find? (fun kv => kv.1 = "content-type")).map
      (fun kv => kv.2) = none) :
    handleResponse operation data sourceOtg identifier args rd response =
      (match operation.responseContentType with
       | none => Except.ok V.null
       | some _ => Except.error ResolverError.noContentTypeHeader) := by
  unfold handleResponse
  split
  · rename_i hc
    simp only [Bool.or_eq_true, decide_eq_true_eq] at hc
    rcases hc with h | h <;> omega
  · rw [hct]

theorem c7_missing_content_type_witness :
    handleResponse c7OperationNoType {} none "x" [] {} c7Response = Except.ok V.null ∧
    handleResponse c3Operation {} none "x" [] {} c7Response =
      Except.error ResolverError.noContentTypeHeader := by
  constructor
  · have h := c7_missing_content_type c7OperationNoType {} none "x" [] {} c7Response
      (by decide) (by decide) rfl
    rw [h]
    rfl
  · have h := c7_missing_content_type c3Operation {} none "x" [] {} c7Response
      (by decide) (by decide) rfl
    rw [h]
    rfl

/-- Claim C10: evaluating the runtime expression for the whole response
body produces the JSON round trip (deep copy) of the parent result
with the hidden per-branch field set to undefined, so the field reads
undefined while every other field of the copy is unchanged; the
internal record is not exposed to the descendant operation. -/
theorem c10_response_body_hides_record (fs : List (String × V)) (rd : ResolveData)
    (args : Args) (paramName : String) :
    resolveRuntimeExpression paramName "$response.body" rd (V.obj fs) args =
      Except.ok (V.obj (setField (roundTripFields fs) OPENAPI_TO_GRAPHQL V.undef)) ∧
    getField (setField (roundTripFields fs) OPENAPI_TO_GRAPHQL V.undef)
      OPENAPI_TO_GRAPHQL = some V.undef ∧
    ∀ k, k ≠ OPENAPI_TO_GRAPHQL →
      getField (setField (roundTripFields fs) OPENAPI_TO_GRAPHQL V.undef) k =
        getField (roundTripFields fs) k := by
  refine ⟨rfl, getField_setField_self _ _ _, ?_⟩
  intro k hk
  exact getField_setField_other _ _ _ _ hk

theorem c10_response_body_hides_record_witness :
    resolveRuntimeExpression "p" "$response.body" {} (V.obj c10Root) [] =
      Except.ok (V.obj (setField (roundTripFields c10Root) OPENAPI_TO_GRAPHQL V.undef)) ∧
    getField (setField (roundTripFields c10Root) OPENAPI_TO_GRAPHQL V.undef)
      OPENAPI_TO_GRAPHQL = some V.undef ∧
    getField (setField (roundTripFields c10Root) OPENAPI_TO_GRAPHQL V.undef) "id" =
      some (V.str "42") := by
  have h := c10_response_body_hides_record c10Root {} [] "p"
  refine ⟨h.1, h.2.1, ?_⟩
  rw [h.2.2 "id" (by decide)]
  rfl

/-- Claim C5: a link parameter whose value is the single runtime
expression for the response-body id receives the id field of the
ancestor response (value 42 in the spec scenario, any value v here);
and a value mixing literal text with a braced expression has the
braced expression evaluated and substituted in place, the literal text
kept intact. -/
theorem c5_link_parameter_resolution (v : V) (data : PreprocessingData)
    (rd : ResolveData) (args : Args) (paramName : String) :
    handleLinkArgument data rd (V.obj [("id", v)]) args paramName
        "$response.body#/id" =
      Except.ok (setField args (sanitize paramName (caseStyleOf data.options)) v) ∧
    handleLinkArgument data rd (V.obj [("id", V.str "42")]) args paramName
        "user_\x7b$response.body#/id\x7d" =
      Except.ok (setField args (sanitize paramName (caseStyleOf data.options))
        (V.str "user_42")) := by
  constructor
  · rfl
  · rfl

/-- Reduction of the response pipeline on a successful declared-JSON
response: handleResponse runs the record-attachment phase on the
shaped data, propagates its TypeError, and otherwise reaches the
limit phase. Shared by the pagination claims. -/
theorem handleResponse_json_reduces (operation : Operation) (data : PreprocessingData)
    (sourceOtg : Option V) (identifier : String) (args : Args) (rd : ResolveData)
    (response : HttpResponse) (body0 : V)
    (hs1 : 200 ≤ response.statusCode) (hs2 : response.statusCode ≤ 299)
    (hct : (response.headers.find? (fun kv => kv.1 = "content-type")).map
      (fun kv => kv.2) = some "application/json")
    (hdecl : operation.responseContentType = some "application/json")
    (hparse : jsonParse response.body = some body0) :
    handleResponse operation data sourceOtg identifier args rd response =
      (match passOnOpenAPIToGraphQL sourceOtg identifier
          (resolveDataToV { rd with responseHeaders := response.headers })
          (sanitizeObjectKeys (caseStyleOf data.options) body0) with
       | Except.error e => Except.error e
       | Except.ok saneData1 => applyLimitArgument data operation args saneData1) := by
  unfold handleResponse
  split
  · rename_i hc
    simp only [Bool.or_eq_true, decide_eq_true_eq] at hc
    rcases hc with h | h <;> omega
  · rw [hct]
    dsimp only
    rw [hdecl]
    dsimp only
    rw [show strIncludes "application/json" "application/json" = true from rfl]
    simp only [Bool.true_or, if_true]
    rw [hparse]

/-- Claim C3 (amended): with auto-pagination enabled, no declared
limit parameter, and a shaped response on which the record-attachment
phase succeeds with an array containing an object (every element an
object or an array; a null or primitive element instead makes the
resolver throw a TypeError before pagination, refuting the original
claim), a supplied numeric limit argument n yields exactly the first
n elements of the shaped array when n is non-negative, and the
validation error for a negative n. -/
theorem c3_pagination_limit (operation : Operation) (data : PreprocessingData)
    (sourceOtg : Option V) (identifier : String) (args : Args) (rd : ResolveData)
    (response : HttpResponse) (body0 : V) (ys : List V) (n : Int)
    (hopt : data.options.addLimitArgument = true)
    (hnoparam : operation.parameters.any (fun p => p.name = "limit") = false)
    (hs1 : 200 ≤ response.statusCode) (hs2 : response.statusCode ≤ 299)
    (hct : (response.headers.find? (fun kv => kv.1 = "content-type")).map
      (fun kv => kv.2) = some "application/json")
    (hdecl : operation.responseContentType = some "application/json")
    (hparse : jsonParse response.body = some body0)
    (hshape : passOnOpenAPIToGraphQL sourceOtg identifier
        (resolveDataToV { rd with responseHeaders := response.headers })
        (sanitizeObjectKeys (caseStyleOf data.options) body0) = Except.ok (V.arr ys))
    (hobj : ys.any jsTypeofObject = true)
    (hlimit : getField args "limit" = some (V.num n)) :
    handleResponse operation data sourceOtg identifier args rd response =
      (if 0 ≤ n then Except.ok (V.arr (ys.take n.toNat))
       else Except.error ResolverError.limitNegative) := by
  rw [handleResponse_json_reduces operation data sourceOtg identifier args rd response
    body0 hs1 hs2 hct hdecl hparse]
  rw [hshape]
  dsimp only
  unfold applyLimitArgument
  rw [hopt, hnoparam]
  simp only [Bool.not_false, Bool.true_and]
  rw [hobj]
  simp only [if_true]
  rw [hlimit]
  dsimp only
  by_cases hn : 0 ≤ n
  · rw [if_pos hn]
    have hb : jsGEZero (V.num n) = true := by
      unfold jsGEZero; exact decide_eq_true hn
    rw [hb]
    simp only [if_true]
  · rw [if_neg hn]
    have hb : jsGEZero (V.num n) = false := by
      unfold jsGEZero; exact decide_eq_false hn
    rw [hb]
    simp only [Bool.false_eq_true, if_false]

theorem c3_pagination_limit_witness :
    handleResponse c3Operation c3Data none c3Identifier [("limit", V.num 2)] {}
        c3Response = Except.ok (V.arr (c3Shaped.take 2)) ∧
    handleResponse c3Operation c3Data none c3Identifier [("limit", V.num (-1))] {}
        c3Response = Except.error ResolverError.limitNegative := by
  constructor
  · have h := c3_pagination_limit c3Operation c3Data none c3Identifier
      [("limit", V.num 2)] {} c3Response c3Body c3Shaped 2 rfl rfl (by decide) (by decide)
      rfl rfl rfl rfl rfl rfl
    rw [h]
    rfl
  · have h := c3_pagination_limit c3Operation c3Data none c3Identifier
      [("limit", V.num (-1))] {} c3Response c3Body c3Shaped (-1) rfl rfl (by decide)
      (by decide) rfl rfl rfl rfl rfl rfl
    rw [h]
    rfl

/-- Claim C3 (counterexample): a JSON array body that contains an
object but also a null element, with auto-pagination on, no declared
limit parameter and the non-negative limit argument 2 supplied, makes
the resolver throw the attach-phase TypeError (reading a property of
null at line 578) instead of returning the first 2 elements of the
shaped array, refuting the original claim. -/
theorem c3_counterexample_null_element :
    handleResponse c3Operation c3Data none c3Identifier [("limit", V.num 2)] {}
        c3MixedResponse = Except.error ResolverError.attachTypeError ∧
    resolverOk (handleResponse c3Operation c3Data none c3Identifier
        [("limit", V.num 2)] {} c3MixedResponse) = false := ⟨rfl, rfl⟩

/-- Claim C9 (amended): with auto-pagination enabled, no declared
limit parameter, and a shaped response on which the record-attachment
phase succeeds with an array containing an object (every element an
object or an array; a null or primitive element instead makes the
resolver throw a TypeError before the limit block, refuting the
original claim), a missing limit argument fails with the
cannot-get-value error instead of returning the untruncated array. -/
theorem c9_missing_limit_errors (operation : Operation) (data : PreprocessingData)
    (sourceOtg : Option V) (identifier : String) (args : Args) (rd : ResolveData)
    (response : HttpResponse) (body0 : V) (ys : List V)
    (hopt : data.options.addLimitArgument = true)
    (hnoparam : operation.parameters.any (fun p => p.name = "limit") = false)
    (hs1 : 200 ≤ response.statusCode) (hs2 : response.statusCode ≤ 299)
    (hct : (response.headers.find? (fun kv => kv.1 = "content-type")).map
      (fun kv => kv.2) = some "application/json")
    (hdecl : operation.responseContentType = some "application/json")
    (hparse : jsonParse response.body = some body0)
    (hshape : passOnOpenAPIToGraphQL sourceOtg identifier
        (resolveDataToV { rd with responseHeaders := response.headers })
        (sanitizeObjectKeys (caseStyleOf data.options) body0) = Except.ok (V.arr ys))
    (hobj : ys.any jsTypeofObject = true)
    (hlimit : getField args "limit" = none) :
    handleResponse operation data sourceOtg identifier args rd response =
      Except.error ResolverError.limitMissing := by
  rw [handleResponse_json_reduces operation data sourceOtg identifier args rd response
    body0 hs1 hs2 hct hdecl hparse]
  rw [hshape]
  dsimp only
  unfold applyLimitArgument
  rw [hopt, hnoparam]
  simp only [Bool.not_false, Bool.true_and]
  rw [hobj]
  simp only [if_true]
  rw [hlimit]

theorem c9_missing_limit_errors_witness :
    handleResponse c3Operation c3Data none c3Identifier [] {} c3Response =
      Except.error ResolverError.limitMissing := by
  exact c9_missing_limit_errors c3Operation c3Data none c3Identifier [] {} c3Response
    c3Body c3Shaped rfl rfl (by decide) (by decide) rfl rfl rfl rfl rfl rfl

/-- Claim C9 (counterexample): a JSON array body that contains an
object but also a null element, with auto-pagination on, no declared
limit parameter and no limit argument supplied, makes the resolver
throw the attach-phase TypeError (reading a property of null at line
578) before the limit block, not the cannot-get-value error the
original claim names. -/
theorem c9_counterexample_null_element :
    handleResponse c3Operation c3Data none c3Identifier [] {} c3MixedResponse =
      Except.error ResolverError.attachTypeError ∧
    handleResponse c3Operation c3Data none c3Identifier [] {} c3MixedResponse ≠
      Except.error ResolverError.limitMissing := by
  constructor
  · rfl
  · intro h
    have h2 : (Except.error ResolverError.attachTypeError : Except ResolverError V) =
        Except.error ResolverError.limitMissing := by
      rw [← h]
      rfl
    exact ResolverError.noConfusion (Except.error.inj h2)

theorem extractStep_headers_distinct (data : PreprocessingData) (args : Args)
    (acc : ExtractedRequestData) (p : ParameterObject)
    (hd : keysDistinct acc.headers) :
    keysDistinct (extractStep data args acc p).headers := by
  unfold extractStep
  split <;> dsimp only
  · split
    · exact hd
    · exact hd
  · split
    · exact hd
    · exact hd
  · split
    · exact keysDistinct_setField _ _ _ hd
    · exact hd
  · split
    · exact keysDistinct_setField _ _ _ hd
    · exact hd
  · split
    · exact hd
    · exact hd

theorem extract_headers_distinct_aux (data : PreprocessingData) (args : Args) :
    ∀ (params : List ParameterObject) (acc : ExtractedRequestData),
      keysDistinct acc.headers →
      keysDistinct (params.foldl (extractStep data args) acc).headers := by
  intro params
  induction params with
  | nil => intro acc hd; exact hd
  | cons p rest ih =>
      intro acc hd
      exact ih (extractStep data args acc p) (extractStep_headers_distinct data args acc p hd)

theorem extract_headers_distinct (path : String) (params : List ParameterObject)
    (args : Args) (data : PreprocessingData) :
    keysDistinct (extractRequestDataFromArgs path params args data).headers := by
  unfold extractRequestDataFromArgs
  exact extract_headers_distinct_aux data args params _ (by simp [keysDistinct])

theorem getField_assignFields_nil_of_distinct (src : List (String × V)) (k : String)
    (hd : keysDistinct src) : getField (assignFields [] src) k = getField src k := by
  rw [getField_assignFields src [] k, lastGet_eq_getField src k hd]
  cases getField src k with
  | none => rfl
  | some v => rfl

theorem createOAuthHeader_lastGet_of_none (data : PreprocessingData) (context : V)
    (k : String) (hk1 : k ≠ "Authorization") (hk2 : k ≠ "User-Agent")
    (htok : data.options.tokenJSONpath = none) :
    lastGet (createOAuthHeader data context) k = none := by
  unfold createOAuthHeader
  rw [htok]
  rfl

/-- Claim C1 (counterexample): the fixed accept header is overridden by
per-call requestOptions headers. The fixture operation declares no
response content type, so the claim requires accept to equal
application/json in the dispatched request, but with requestOptions
headers carrying accept text/xml the dispatched accept is text/xml. -/
theorem c1_counterexample_request_options_override :
    getField c1Options.headers "accept" = some (V.str "text/xml") ∧
    getField c1Options.headers "accept" ≠ some (V.str "application/json") := by
  constructor
  · rfl
  · intro h
    have h2 : some (V.str "text/xml") = some (V.str "application/json") := by
      rw [← h]
      rfl
    have h3 : "text/xml" = "application/json" := by
      simp only [Option.some.injEq, V.str.injEq] at h2
      exact h2
    exact absurd h3 (by decide)

/-- Claim C1 (amended): for a synthesized resolver invocation without
ancestor security data, the content-type header of the dispatched
request (for a non-GET operation) is the declared payload content type
or application/json, and the accept header is the declared response
content type or application/json, PROVIDED the per-call requestOptions
headers and the static option headers do not themselves write those
two keys; the merge order makes such writes override the fixed values,
as the counterexample shows. -/
theorem c1_headers_default_unless_overridden (operation : Operation)
    (data : PreprocessingData) (payloadName : Option String)
    (ro : PartialRequestOptions) (context : V) (baseUrl : String) (args : Args)
    (pr : RequestOptionsModel × V)
    (hro : ∀ hs, ro.headers = some hs →
      lastGet hs "content-type" = none ∧ lastGet hs "accept" = none)
    (hst : ∀ hs, data.options.headers = some hs →
      lastGet hs "content-type" = none ∧ lastGet hs "accept" = none)
    (htok : data.options.tokenJSONpath = none)
    (hrun : buildRequestOptions operation data payloadName (some ro) none context
      baseUrl args = Except.ok pr) :
    (operation.method ≠ HTTP_METHODS_get →
      getField pr.1.headers "content-type" =
        some (V.str (operation.payloadContentType.getD "application/json"))) ∧
    getField pr.1.headers "accept" =
      some (V.str (operation.responseContentType.getD "application/json")) := by
  unfold buildRequestOptions at hrun
  dsimp only at hrun
  simp only [Except.ok.injEq] at hrun
  subst hrun
  dsimp only
  have hdistE := extract_headers_distinct operation.path operation.parameters args data
  have hdist2 : keysDistinct (setField
      (if operation.method ≠ HTTP_METHODS_get then
        setField (extractRequestDataFromArgs operation.path operation.parameters
          args data).headers "content-type"
          (V.str (operation.payloadContentType.getD "application/json"))
      else (extractRequestDataFromArgs operation.path operation.parameters
        args data).headers)
      "accept" (V.str (operation.responseContentType.getD "application/json"))) := by
    apply keysDistinct_setField
    split
    · exact keysDistinct_setField _ _ _ hdistE
    · exact hdistE
  cases hsend : data.options.sendOAuthTokenInQuery <;>
    cases hsh : data.options.headers <;>
    cases hroh : ro.headers <;>
    dsimp only <;>
    simp only [Bool.false_eq_true, eq_self_iff_true, if_true, if_false] <;>
    constructor
  all_goals try intro hm
  all_goals repeat
    first
    | rw [getField_assignFields_of_lastGet_none _ _ _
        (createOAuthHeader_lastGet_of_none data context _ (by decide) (by decide) htok)]
    | rw [getField_assignFields_of_lastGet_none _ _ _ (hst _ hsh).1]
    | rw [getField_assignFields_of_lastGet_none _ _ _ (hst _ hsh).2]
    | rw [getField_assignFields_of_lastGet_none _ _ _ (hro _ hroh).1]
    | rw [getField_assignFields_of_lastGet_none _ _ _ (hro _ hroh).2]
  all_goals try rw [getField_assignFields_nil_of_distinct _ _ hdist2]
  all_goals first
    | exact getField_setField_self _ _ _
    | (rw [getField_setField_other _ _ _ _ (by decide), if_pos hm]
       exact getField_setField_self _ _ _)

theorem c1_headers_default_unless_overridden_witness :
    getField c1CleanPair.1.headers "content-type" = some (V.str "application/json") ∧
    getField c1CleanPair.1.headers "accept" = some (V.str "application/json") := by
  have h := c1_headers_default_unless_overridden c1Operation {} none
    c1CleanRequestOptions V.null "http://api" [] c1CleanPair
    (by intro hs hh
        have h3 : some [("x-request-id", V.str "abc")] = some hs := by
          rw [← hh]
          rfl
        have h2 : hs = [("x-request-id", V.str "abc")] := (Option.some.inj h3).symm
        subst h2
        exact ⟨rfl, rfl⟩)
    (fun hs hh => nomatch hh)
    rfl
    rfl
  exact ⟨h.1 (by decide), h.2⟩

theorem c8_deep_copy_preserves_parent_witness :
    heapWFB c8Heap = true ∧
    c8Run = some (c8HeapAfter, 4) ∧
    readBackV 12 c8HeapAfter (JVal.jref 3) = readBackV 12 c8Heap (JVal.jref 3) := by
  refine ⟨rfl, rfl, ?_⟩
  exact resolverRecordPhase_preserves_parent 10 c8Heap 0 "getThing" c8Args
    (JVal.jstr "payload") "200" JVal.undef JVal.undef c8HeapAfter 4 rfl rfl 12 3
    (by decide)

end OpenAPIGraphQL
